import Mathlib

/-!
Verification development for the real-time voice loan-advisory pipeline
(`backend/app/routes/voice_realtime_v2.py`).

The Python module is shallowly embedded below:
* `parse_written_number`, `extract_structured_data` and their regular
  expressions are translated into executable Lean functions over `List Char`
  (Python `re.search` is modelled by a backtracking matcher `mre`/`reSearch`
  with leftmost-position, leftmost-alternative, greedy semantics and one
  capturing group, exactly the features the module's patterns use);
* `predict_loan_eligibility` and the per-turn body `process_user_message`
  become pure state-transition functions on a `SessionSt` record, with the
  external collaborators (the Ollama token stream, the ML scorer, the Piper
  synthesizer) passed in as parameters;
* the WebSocket main loop's dispatch on recognizer events becomes `mainStep`,
  and the TTS background worker becomes `workerStep` acting on the session's
  sentence queue.

Python floats are modelled as `ℚ` (the module only ever produces decimal
values with at most two fractional digits), Python ints as `ℤ`.
-/

/- Batteries marks the `Rat` arithmetic operations `@[irreducible]`, which
blocks `decide`/`rfl` evaluation of the model on concrete inputs; restore
their normal reducibility for this file. -/
attribute [local semireducible] Rat.add Rat.mul Rat.sub Rat.inv

/- ============ character / list utilities ============ -/

/-- The apostrophe character, used in the literal regex texts `i'm`, `it's`. -/
def apos : Char := Char.ofNat 39

def isWs (c : Char) : Bool := c.isWhitespace

/-- Python `str.lower()` (ASCII behaviour). -/
def lowerL (s : List Char) : List Char := s.map Char.toLower

/-- Drop trailing whitespace (second half of Python `str.strip()`). -/
def dropTrail (s : List Char) : List Char := ((s.reverse).dropWhile isWs).reverse

/-- Python `str.strip()`. -/
def trimL (s : List Char) : List Char := dropTrail (s.dropWhile isWs)

/-- Python `str.rstrip()`. -/
def rstripL (s : List Char) : List Char := dropTrail s

/-- Does `w` occur at the head of `s`? -/
def headSeg : List Char → List Char → Bool
  | [], _ => true
  | _ :: _, [] => false
  | a :: x, b :: y => a = b && headSeg x y

/-- Does `w` occur contiguously inside `s`?  Models Python `w in s`. -/
def seg (w : List Char) : List Char → Bool
  | [] => headSeg w []
  | c :: t => headSeg w (c :: t) || seg w t

/-- Python `str.replace(",", "")`. -/
def removeCommas (s : List Char) : List Char := s.filter (fun c => c ≠ ',')

/-- Python `str.split()` (split on whitespace runs, no empty words). -/
def wordsGo (cur : List Char) : List Char → List (List Char)
  | [] => if cur = [] then [] else [cur.reverse]
  | c :: t =>
    if isWs c then
      if cur = [] then wordsGo [] t else cur.reverse :: wordsGo [] t
    else wordsGo (c :: cur) t

def wordsOf (s : List Char) : List (List Char) := wordsGo [] s

/-- Python `" ".join(ws)`. -/
def joinSp : List (List Char) → List Char
  | [] => []
  | [w] => w
  | w :: rest => w ++ ' ' :: joinSp rest

/-- Index of the last `' '` in `s` (Python `str.rfind(' ')`, `none` for -1). -/
def rfindSpace : List Char → Option Nat
  | [] => none
  | c :: t =>
    match rfindSpace t with
    | some i => some (i + 1)
    | none => if c = ' ' then some 0 else none

/- ============ numeric string parsing ============ -/

/-- Digits-only string to a natural number. -/
def digitsVal : List Char → Nat → Nat
  | [], acc => acc
  | c :: t, acc => digitsVal t (acc * 10 + (c.toNat - 48))

/-- Python `int(s)` restricted to nonempty all-digit strings (the only shape
the module's regexes can produce); anything else raises, modelled as `none`. -/
def parseIntZ (s : List Char) : Option ℤ :=
  if s ≠ [] ∧ s.all Char.isDigit then some (digitsVal s 0) else none

/-- Python `float(s)` restricted to `digits` or `digits.digits` strings (the
only shapes the module's comma-stripped regex groups can produce); anything
else raises, modelled as `none`. -/
def parseFloatQ (s : List Char) : Option ℚ :=
  let ip := s.takeWhile Char.isDigit
  let rest := s.dropWhile Char.isDigit
  if ip = [] then none
  else
    match rest with
    | [] => some (digitsVal ip 0)
    | '.' :: fp =>
      if fp ≠ [] ∧ fp.all Char.isDigit then
        some ((digitsVal ip 0 : ℚ) + (digitsVal fp 0 : ℚ) / (10 ^ fp.length : ℕ))
      else none
    | _ => none

/-- `credit_score_shortcuts` of `parse_written_number`. -/
def creditShortcuts : List (List Char × ℚ) :=
  [("seven fifty".toList, 750), ("seven hundred".toList, 700),
   ("six fifty".toList, 650), ("six hundred".toList, 600),
   ("eight hundred".toList, 800), ("seven hundred fifty".toList, 750),
   ("six hundred fifty".toList, 650)]

/-- `ones` table of `parse_written_number`. -/
def onesTbl : List (List Char × ℚ) :=
  [("one".toList, 1), ("two".toList, 2), ("three".toList, 3), ("four".toList, 4),
   ("five".toList, 5), ("six".toList, 6), ("seven".toList, 7), ("eight".toList, 8),
   ("nine".toList, 9), ("ten".toList, 10), ("eleven".toList, 11), ("twelve".toList, 12),
   ("thirteen".toList, 13), ("fourteen".toList, 14), ("fifteen".toList, 15),
   ("sixteen".toList, 16), ("seventeen".toList, 17), ("eighteen".toList, 18),
   ("nineteen".toList, 19)]

/-- `tens` table of `parse_written_number`. -/
def tensTbl : List (List Char × ℚ) :=
  [("twenty".toList, 20), ("thirty".toList, 30), ("forty".toList, 40),
   ("fifty".toList, 50), ("sixty".toList, 60), ("seventy".toList, 70),
   ("eighty".toList, 80), ("ninety".toList, 90)]

/-- `scales` table of `parse_written_number`. -/
def scalesTbl : List (List Char × ℚ) :=
  [("hundred".toList, 100), ("thousand".toList, 1000), ("million".toList, 1000000)]

def tblLookup (tbl : List (List Char × ℚ)) (w : List Char) : Option ℚ :=
  (tbl.find? (fun kv => kv.1 = w)).map (·.2)

/-- One step of `parse_written_number`'s word loop (state `(result, current)`). -/
def pwnStep (acc : ℚ × ℚ) (w : List Char) : ℚ × ℚ :=
  let (res, cur) := acc
  match tblLookup onesTbl w with
  | some v => (res, cur + v)
  | none =>
    match tblLookup tensTbl w with
    | some v => (res, cur + v)
    | none =>
      match tblLookup scalesTbl w with
      | some v =>
        let cur2 := (if cur = 0 then 1 else cur) * v
        if 1000 ≤ v then (res + cur2, 0) else (res, cur2)
      | none => (res, cur)

/-- `parse_written_number(text)` from `voice_realtime_v2.py`. -/
def parse_written_number (s : List Char) : ℚ :=
  let t := trimL (lowerL s)
  match tblLookup creditShortcuts t with
  | some v => v
  | none =>
    let p := (wordsOf t).foldl pwnStep (0, 0)
    p.1 + p.2

/- ============ regex engine ============ -/

/-- The character classes used by the module's patterns. -/
inductive CC | digit | space | upper | lower
deriving DecidableEq, Repr

/-- Regex AST: exactly the constructs appearing in the module's patterns
(one capturing group `grp`, word boundary `wb`, end anchor `eol`). -/
inductive Re
  | eps
  | lit (c : Char)
  | cls (cc : CC)
  | seq (a b : Re)
  | alt (a b : Re)
  | star (a : Re)
  | grp (a : Re)
  | wb
  | eol
deriving Repr

/-- Literal match, honouring `re.IGNORECASE` when `ci` is true. -/
def litMatch (ci : Bool) (c c2 : Char) : Bool :=
  c = c2 || (ci && (c.toLower = c2.toLower))

/-- Class match; under `re.IGNORECASE` the ranges `[A-Z]`/`[a-z]` match
letters of either case. -/
def clsMatch (ci : Bool) : CC → Char → Bool
  | .digit, c => c.isDigit
  | .space, c => c.isWhitespace
  | .upper, c => if ci then c.isAlpha else c.isUpper
  | .lower, c => if ci then c.isAlpha else c.isLower

/-- Python `\w` (ASCII word character). -/
def wordChar (c : Char) : Bool := c.isAlphanum || c = '_'

def wordAt (t : List Char) (j : Nat) : Bool :=
  match t.get? j with
  | some c => wordChar c
  | none => false

/-- Group-1 capture positions. -/
structure GSt where
  gs : Option Nat
  ge : Option Nat
deriving DecidableEq, Repr

/-- Backtracking matcher in continuation-passing style: try to match `r` in
`t` at index `i` with capture state `g`; on each way `r` can match, the
continuation `k` is offered the end index, and the first overall success
wins.  Alternation prefers the left branch and `star` is greedy, matching
Python's `re` semantics for these patterns.  `fuel` bounds call depth. -/
def mre (ci : Bool) (t : List Char) : Nat → Re → Nat → GSt →
    (Nat → GSt → Option GSt) → Option GSt
  | 0, _, _, _, _ => none
  | fuel + 1, r, i, g, k =>
    match r with
    | .eps => k i g
    | .lit c =>
      match t.get? i with
      | some c2 => if litMatch ci c c2 then k (i + 1) g else none
      | none => none
    | .cls cc =>
      match t.get? i with
      | some c2 => if clsMatch ci cc c2 then k (i + 1) g else none
      | none => none
    | .seq a b => mre ci t fuel a i g (fun j g2 => mre ci t fuel b j g2 k)
    | .alt a b =>
      match mre ci t fuel a i g k with
      | some res => some res
      | none => mre ci t fuel b i g k
    | .star a =>
      match mre ci t fuel a i g
          (fun j g2 => if i < j then mre ci t fuel (.star a) j g2 k else none) with
      | some res => some res
      | none => k i g
    | .grp a => mre ci t fuel a i ⟨some i, g.ge⟩ (fun j g2 => k j ⟨g2.gs, some j⟩)
    | .wb =>
      let prevW := if i = 0 then false else wordAt t (i - 1)
      if prevW != wordAt t i then k i g else none
    | .eol =>
      if i = t.length || (i + 1 = t.length && t.get? i = some '\n') then k i g
      else none

/-- Call-depth budget: generous bound on the nesting the module's patterns
can reach on a text of this length. -/
def fuelFor (t : List Char) : Nat := (t.length + 2) * 120 + 2000

/-- Scan of match start positions `i = 0, 1, ...` (Python `re.search` is
leftmost-first); on the first position where the whole pattern matches,
return the group-1 bounds. -/
def searchGo (ci : Bool) (r : Re) (t : List Char) : Nat → Nat → Option (Nat × Nat)
  | 0, _ => none
  | rem + 1, i =>
    match mre ci t (fuelFor t) r i ⟨none, none⟩ (fun _ g => some g) with
    | some g =>
      match g.gs, g.ge with
      | some a, some b => some (a, b)
      | _, _ => none
    | none => if i < t.length then searchGo ci r t rem (i + 1) else none

/-- Python `re.search(pattern, t)[.group(1)]`: `none` when there is no match,
otherwise the text of capturing group 1 (every pattern in the module has
exactly one mandatory capturing group). -/
def reSearch (ci : Bool) (r : Re) (t : List Char) : Option (List Char) :=
  match searchGo ci r t (t.length + 1) 0 with
  | some (a, b) => some ((t.drop a).take (b - a))
  | none => none

/- ============ pattern builders and the module's patterns ============ -/

def catR : List Re → Re
  | [] => .eps
  | [r] => r
  | r :: rest => .seq r (catR rest)

def altsR : List Re → Re
  | [] => .eps
  | [r] => r
  | r :: rest => .alt r (altsR rest)

def strR (s : String) : Re := catR (s.toList.map .lit)

def wordAlts (ws : List String) : Re := altsR (ws.map strR)

def optR (r : Re) : Re := .alt r .eps

def plusR (r : Re) : Re := .seq r (.star r)

/-- `\s+` -/
def WS1 : Re := plusR (.cls .space)

/-- `\d` -/
def D : Re := .cls .digit

/-- Greedy `{0,2}`. -/
def rep02 (r : Re) : Re := optR (.seq r (optR r))

/-- Greedy `\d{1,3}`. -/
def rep13D : Re := .seq D (optR (.seq D (optR D)))

/-- The number-word alternation `(?:one|two|...|hundred|thousand)` shared by
the income and loan patterns. -/
def numWords20 : List String :=
  ["one", "two", "three", "four", "five", "six", "seven", "eight", "nine",
   "ten", "twenty", "thirty", "forty", "fifty", "sixty", "seventy", "eighty",
   "ninety", "hundred", "thousand"]

/-- `((?:W)(?:\s+(?:W))*)` with `W` the number-word alternation. -/
def writtenNumRe : Re :=
  .grp (catR [wordAlts numWords20, .star (catR [WS1, wordAlts numWords20])])

/-- `(\d{1,3}(?:,\d{3})*(?:\.\d{2})?)` -/
def numAmtRe : Re :=
  .grp (catR [rep13D, .star (catR [.lit ',', D, D, D]),
              optR (catR [.lit '.', D, D])])

/-- `(?:\s+dollars?)?` -/
def dollarsOpt : Re := optR (catR [WS1, strR "dollar", optR (.lit 's')])

/-- `(?:monthly\s+)?` -/
def monthlyOpt : Re := optR (catR [strR "monthly", WS1])

/-- `(?:is\s+)?` -/
def isOpt : Re := optR (catR [strR "is", WS1])

def incomeP1 : Re :=
  catR [monthlyOpt, strR "income", WS1, strR "is", WS1, writtenNumRe, dollarsOpt]

def incomeP2 : Re :=
  catR [altsR [strR "earn", strR "make"], WS1, isOpt, writtenNumRe, dollarsOpt]

def incomeP3 : Re :=
  catR [monthlyOpt, strR "income", WS1, strR "is", WS1, optR (.lit '$'), numAmtRe]

def incomeP4 : Re :=
  catR [altsR [strR "earn", strR "make", strR "salary"], WS1, isOpt,
        optR (.lit '$'), numAmtRe]

def incomePatterns : List Re := [incomeP1, incomeP2, incomeP3, incomeP4]

def scoreP1 : Re :=
  catR [strR "credit", WS1, strR "score", WS1, strR "is", WS1,
        .grp (catR [wordAlts ["three", "four", "five", "six", "seven", "eight"],
                    WS1,
                    wordAlts ["hundred", "fifty", "sixty", "seventy", "eighty", "ninety"],
                    optR (catR [WS1, wordAlts ["one", "two", "three", "four", "five",
                                               "six", "seven", "eight", "nine"]])])]

def scoreP2 : Re :=
  catR [strR "credit", WS1, strR "score", WS1, strR "is", WS1,
        .grp (catR [wordAlts ["three", "four", "five", "six", "seven", "eight"],
                    optR (catR [WS1, strR "hundred"])])]

def scoreP3 : Re :=
  catR [strR "score", WS1, strR "is", WS1,
        .grp (altsR [catR [strR "seven", WS1, strR "fifty"],
                     catR [strR "seven", WS1, strR "hundred"],
                     catR [strR "six", WS1, strR "fifty"],
                     catR [strR "eight", WS1, strR "hundred"]])]

def scoreP4 : Re :=
  catR [strR "credit", WS1, strR "score", WS1, strR "is", WS1, .grp (catR [D, D, D])]

def scoreP5 : Re := catR [strR "score", WS1, strR "is", WS1, .grp (catR [D, D, D])]

def scorePatterns : List Re := [scoreP1, scoreP2, scoreP3, scoreP4, scoreP5]

def loanP1 : Re :=
  catR [strR "loan", WS1, strR "amount", WS1, strR "of", WS1, writtenNumRe, dollarsOpt]

def loanP2 : Re :=
  catR [strR "need", WS1, writtenNumRe, dollarsOpt, optR (catR [WS1, strR "loan"])]

def loanP3 : Re :=
  catR [altsR [strR "loan", strR "borrow"], optR (catR [WS1, strR "of"]), WS1,
        writtenNumRe, dollarsOpt]

def loanP4 : Re := catR [strR "need", WS1, optR (.lit '$'), numAmtRe]

def loanP5 : Re :=
  catR [altsR [strR "loan", strR "borrow"], optR (catR [WS1, strR "of"]), WS1,
        optR (.lit '$'), numAmtRe]

def loanP6 : Re :=
  catR [strR "loan", WS1, strR "amount", WS1, strR "of", WS1, optR (.lit '$'), numAmtRe]

def loanPatterns : List Re := [loanP1, loanP2, loanP3, loanP4, loanP5, loanP6]

/-- `([A-Z][a-z]+(?:\s+[A-Z][a-z]+){0,2})` -/
def nameCore : Re :=
  .grp (catR [.cls .upper, plusR (.cls .lower),
              rep02 (catR [WS1, .cls .upper, plusR (.cls .lower)])])

/-- `(?:\s+(?:and|my|...)\b|\.|\,|$)` -/
def nameTail : Re :=
  altsR [catR [WS1, wordAlts ["and", "my", "i", "the", "a", "an", "for", "with",
                              "from", "to", "in", "on", "at", "by", "of"], .wb],
         strR ".", strR ","]
  |>.alt .eol

/-- `(?:my name is|i'm|i am|call me)` (`i'm` built from `apos`). -/
def nameLead1 : Re :=
  altsR [strR "my name is", catR [.lit 'i', .lit apos, .lit 'm'], strR "i am",
         strR "call me"]

/-- `(?:this is|it's)` -/
def nameLead2 : Re :=
  altsR [strR "this is", catR [.lit 'i', .lit 't', .lit apos, .lit 's']]

def nameP1 : Re := catR [nameLead1, WS1, nameCore, nameTail]

def nameP2 : Re := catR [nameLead2, WS1, nameCore, nameTail]

def namePatterns : List Re := [nameP1, nameP2]

/- ============ structured profile and extraction ============ -/

/-- The session's `structured_data` dict.  Its only possible keys are the four
extracted fields plus `document_verified` (written only as `True`, read with
default `False`, so modelled as a `Bool`). -/
structure Profile where
  name : Option String
  monthly_income : Option ℚ
  credit_score : Option ℤ
  loan_amount : Option ℚ
  document_verified : Bool
deriving DecidableEq, Repr

def initProfile : Profile := ⟨none, none, none, none, false⟩

/-- The word list of the `any(word in s for word in [...])` checks guarding
the written-number branch for income and loan amounts. -/
def numWordsChk : List String :=
  ["one", "two", "three", "four", "five", "six", "seven", "eight", "nine",
   "ten", "twenty", "thirty", "forty", "fifty", "sixty", "seventy", "eighty",
   "ninety", "hundred", "thousand", "million"]

/-- The word list of the corresponding check for credit scores. -/
def scoreWordsChk : List String :=
  ["three", "four", "five", "six", "seven", "eight"]

def containsAnyWord (s : List Char) (ws : List String) : Bool :=
  ws.any (fun w => seg w.toList s)

/-- Python `int(q)` for the nonnegative whole values `parse_written_number`
produces (truncation and floor agree there). -/
def ratToInt (q : ℚ) : ℤ := ⌊q⌋

/-- The name loop: first pattern with a match wins; the matched group is
stripped, split, truncated to two words and re-joined. -/
def tryName (t : List Char) : List Re → Option String
  | [] => none
  | p :: ps =>
    match reSearch true p t with
    | some g => some (String.mk (joinSp ((wordsOf (trimL g)).take 2)))
    | none => tryName t ps

/-- The income/loan loop: on a match, commas are stripped; if the group
contains a number word it goes through `parse_written_number`, otherwise
through `float()`; a value is kept only if it lies in `[lo, hi]`, and any
parse failure or range failure moves on to the next pattern. -/
def tryAmt (lo hi : ℚ) (t : List Char) : List Re → Option ℚ
  | [] => none
  | p :: ps =>
    match reSearch false p t with
    | none => tryAmt lo hi t ps
    | some g =>
      let s := trimL (removeCommas g)
      let v : Option ℚ :=
        if containsAnyWord s numWordsChk then some (parse_written_number s)
        else parseFloatQ s
      match v with
      | some x => if lo ≤ x ∧ x ≤ hi then some x else tryAmt lo hi t ps
      | none => tryAmt lo hi t ps

/-- The credit-score loop (range `[300, 850]`, integer values). -/
def tryScore (t : List Char) : List Re → Option ℤ
  | [] => none
  | p :: ps =>
    match reSearch false p t with
    | none => tryScore t ps
    | some g =>
      let s := trimL g
      let v : Option ℤ :=
        if containsAnyWord s scoreWordsChk then some (ratToInt (parse_written_number s))
        else parseIntZ s
      match v with
      | some x => if 300 ≤ x ∧ x ≤ 850 then some x else tryScore t ps
      | none => tryScore t ps

def extractName (t : List Char) (d : Profile) : Profile :=
  if d.name = none then
    match tryName t namePatterns with
    | some n => { d with name := some n }
    | none => d
  else d

def extractIncome (tl : List Char) (d : Profile) : Profile :=
  if d.monthly_income = none then
    match tryAmt 100 1000000 tl incomePatterns with
    | some v => { d with monthly_income := some v }
    | none => d
  else d

def extractScore (tl : List Char) (d : Profile) : Profile :=
  if d.credit_score = none then
    match tryScore tl scorePatterns with
    | some v => { d with credit_score := some v }
    | none => d
  else d

def extractLoan (tl : List Char) (d : Profile) : Profile :=
  if d.loan_amount = none then
    match tryAmt 1000 10000000 tl loanPatterns with
    | some v => { d with loan_amount := some v }
    | none => d
  else d

/-- `extract_structured_data(text, existing_data)`: name is matched on the
raw text with `re.IGNORECASE`, the numeric fields on `text.lower()`; each
field is attempted only when absent. -/
def extract_structured_data (text : String) (data : Profile) : Profile :=
  extractLoan (lowerL text.toList)
    (extractScore (lowerL text.toList)
      (extractIncome (lowerL text.toList)
        (extractName text.toList data)))

/- ============ eligibility prediction ============ -/

/-- The flat feature record passed to `ml_service.predict_eligibility`
(the `float`/`int` casts are identities in this model). -/
structure Features where
  monthly_income : ℚ
  credit_score : ℤ
  loan_amount : ℚ
deriving DecidableEq, Repr

/-- The result dictionary returned by the ML collaborator. -/
structure PredResult where
  eligibility_score : ℚ
  eligibility_status : String
  confidence : ℚ
  risk_level : String
  recommendations : List String
deriving DecidableEq, Repr

/-- The external ML collaborator: `none` results model both a `None` return
and an exception inside `predict_eligibility` (caught and logged). -/
def MLService := Features → Option PredResult

/-- The guard-and-build part of `predict_loan_eligibility`: `None` unless
`document_verified` is true and the three required numeric fields are
present; otherwise the feature record made of the profile's values. -/
def featuresOf (p : Profile) : Option Features :=
  if ¬ p.document_verified then none
  else
    match p.monthly_income, p.credit_score, p.loan_amount with
    | some i, some c, some l => some ⟨i, c, l⟩
    | _, _, _ => none

/-- `predict_loan_eligibility(structured_data, ml_service)`; the second
component counts the calls made to `ml_service.predict_eligibility`
(0 or 1), used to state invocation-count properties. -/
def predictLE (p : Profile) (ml : Option MLService) : Option PredResult × Nat :=
  match ml with
  | none => (none, 0)
  | some f =>
    match featuresOf p with
    | some ft => (f ft, 1)
    | none => (none, 0)

/- ============ session state and the per-turn transition ============ -/

/-- Outbound WebSocket messages relevant to the session's behaviour.
`audioEv i` is an `audio_chunk` synthesized from a sentence that was queued
while processing the turn with index `i`. -/
inductive Ev
  | structuredUpdate (p : Profile)
  | aiToken (s : String)
  | eligRes (r : PredResult)
  | docReq
  | errEv
  | interimEv (s : String)
  | finalEv (s : String)
  | audioEv (turn : Nat)
  | pongEv
deriving DecidableEq, Repr

/-- The per-connection mutable state of `voice_stream_endpoint`:
conversation history (`true` = user), the structured profile, the user and
AI transcript buffers, the TTS sentence buffer, and the TTS queue.  Queue
entries are tagged with the index of the turn that enqueued them (ghost
information used only to state ordering properties); `turnIdx` counts the
turns processed so far. -/
structure SessionSt where
  conversation : List (Bool × String)
  profile : Profile
  userBuf : String
  aiBuf : String
  ttsBuf : String
  queue : List (Nat × String)
  turnIdx : Nat
deriving DecidableEq, Repr

def initSt : SessionSt := ⟨[], initProfile, "", "", "", [], 0⟩

/-- Does this token end a sentence (`token.rstrip().endswith(('.', '!', '?', ':'))`,
the token being already right-stripped)? -/
def endsAny (tok : List Char) : Bool :=
  match tok.getLast? with
  | some '.' => true
  | some '!' => true
  | some '?' => true
  | some ':' => true
  | _ => false

/-- The Ollama token loop of `process_user_message`: each stdout line is
right-stripped and skipped if empty; otherwise it is sent as an `ai_token`
event, appended to the reply and to the TTS buffer; a buffer ending a
sentence is stripped and queued, and a buffer longer than 100 characters is
split at its last space.  Returns the final TTS buffer, the concatenated
reply, the queued sentences in order, and the emitted events. -/
def foldToks (buf : List Char) :
    List String → List Char × List Char × List (List Char) × List Ev
  | [] => (buf, [], [], [])
  | raw :: rest =>
    let tok := rstripL raw.toList
    if tok = [] then foldToks buf rest
    else
      let b2 := buf ++ tok
      let step : List Char × List (List Char) :=
        if endsAny tok then
          let sent := trimL b2
          ([], if sent ≠ [] then [sent] else [])
        else if 100 < b2.length then
          match rfindSpace b2 with
          | some ls =>
            if 0 < ls then
              let part := trimL (b2.take ls)
              (trimL (b2.drop ls), if part ≠ [] then [part] else [])
            else (b2, [])
          | none => (b2, [])
        else (b2, [])
      let r := foldToks step.1 rest
      (r.1, tok ++ r.2.1, step.2 ++ r.2.2.1, Ev.aiToken (String.mk tok) :: r.2.2.2)

/-- The lowercase trigger phrase of the document-verification branch. -/
def docPhraseL : List Char := "document verified".toList

/-- The acknowledgment `ai_token` sent after a successful post-verification
prediction. -/
def ackMsg : String :=
  "Perfect! Your document has been verified. Based on your information, "

/-- `all(k in structured_data for k in ["name", "monthly_income",
"credit_score", "loan_amount"])`. -/
def hasAllB (p : Profile) : Bool :=
  p.name.isSome && p.monthly_income.isSome && p.credit_score.isSome &&
    p.loan_amount.isSome

/-- `process_user_message(text)` as a pure transition.  Parameters: `ml` the
ML collaborator (as in `predictLE`), `llm` the Ollama stream (`none` models
`run_ollama_stream` returning `None`, `some toks` the decoded stdout lines).
Returns the new session state, the outbound events in order, and the number
of `ml_service.predict_eligibility` invocations during the turn.

Control flow translated from the source: empty text returns immediately;
the user turn is appended to history and the transcript buffer; a text
containing "document verified" sets the flag, immediately runs a prediction
(emitting `eligibility_result` and an acknowledgment token on success) and
blanks the text; extraction then runs, emitting `structured_update` when the
dict changed; a missing LLM stream emits `error` and returns; otherwise the
tokens are streamed and the TTS buffer flushed; finally, if the profile is
verified a prediction runs again, else if all four fields are present a
`document_verification_required` event is emitted. -/
def stepTurn (ml : Option MLService) (llm : Option (List String))
    (s : SessionSt) (text0 : String) : SessionSt × List Ev × Nat :=
  if trimL text0.toList = [] then (s, [], 0)
  else
    let conv1 := s.conversation ++ [(true, text0)]
    let ubuf1 := s.userBuf ++ " " ++ text0
    let docPhrase := seg docPhraseL (lowerL text0.toList)
    let p1 := if docPhrase then { s.profile with document_verified := true }
              else s.profile
    let pr1 := if docPhrase then predictLE p1 ml else (none, 0)
    let evA : List Ev :=
      if docPhrase then
        match pr1.1 with
        | some r => [Ev.eligRes r, Ev.aiToken ackMsg]
        | none => []
      else []
    let callsA := if docPhrase then pr1.2 else 0
    let text1 := if docPhrase then "" else text0
    let p2 := extract_structured_data text1 p1
    let evB : List Ev := if p2 = p1 then [] else [Ev.structuredUpdate p2]
    match llm with
    | none =>
      ({ s with conversation := conv1, profile := p2, userBuf := ubuf1,
                turnIdx := s.turnIdx + 1 },
       evA ++ evB ++ [Ev.errEv], callsA)
    | some toks =>
      let ft := foldToks s.ttsBuf.toList toks
      let bufF := ft.1
      let msg := ft.2.1
      let queued := ft.2.2.1
      let evC := ft.2.2.2
      let fin : List (List Char) × List Char :=
        if trimL bufF ≠ [] then ([trimL bufF], []) else ([], bufF)
      let conv2 := if trimL msg ≠ [] then conv1 ++ [(false, String.mk msg)]
                   else conv1
      let pr2 := if p2.document_verified then predictLE p2 ml else (none, 0)
      let evD : List Ev :=
        if p2.document_verified then
          match pr2.1 with
          | some r => [Ev.eligRes r]
          | none => []
        else if hasAllB p2 then [Ev.docReq] else []
      let callsD := if p2.document_verified then pr2.2 else 0
      ({ conversation := conv2, profile := p2, userBuf := ubuf1,
         aiBuf := s.aiBuf ++ String.mk msg, ttsBuf := String.mk fin.2,
         queue := s.queue ++ (queued ++ fin.1).map (fun q => (s.turnIdx, String.mk q)),
         turnIdx := s.turnIdx + 1 },
       evA ++ evB ++ evC ++ evD, callsA + callsD)

/-- One iteration of `tts_worker`: pop the oldest queued sentence, call the
synthesizer (`synth` tells whether Piper returned audio) and emit an
`audio_chunk` on success.  Idle when the queue is empty. -/
def workerStep (synth : String → Bool) (s : SessionSt) : SessionSt × List Ev :=
  match s.queue with
  | [] => (s, [])
  | (i, snt) :: rest =>
    ({ s with queue := rest }, if synth snt then [Ev.audioEv i] else [])

/-- Inbound events at the WebSocket main loop: a Vosk final result, a Vosk
partial result, a ping, or a `manual_transcript` control message. -/
inductive InEv
  | audioFinal (t : String)
  | audioInterim (t : String)
  | ping
  | manual (t : String)

/-- The main-loop dispatch of `voice_stream_endpoint`: a final transcript is
stripped, sent as `final_transcript` and processed; a partial result is
stripped and only sent as `partial_transcript`; pings are answered; a
nonempty `manual_transcript` is processed directly. -/
def mainStep (ml : Option MLService) (llm : Option (List String))
    (s : SessionSt) : InEv → SessionSt × List Ev × Nat
  | .audioFinal t =>
    let tt := trimL t.toList
    if tt = [] then (s, [], 0)
    else
      let r := stepTurn ml llm s (String.mk tt)
      (r.1, Ev.finalEv (String.mk tt) :: r.2.1, r.2.2)
  | .audioInterim t =>
    let tt := trimL t.toList
    (s, if tt = [] then [] else [Ev.interimEv (String.mk tt)], 0)
  | .ping => (s, [Ev.pongEv], 0)
  | .manual t => if t = "" then (s, [], 0) else stepTurn ml llm s t

/-- Process a list of final transcripts in order, each with its own LLM
stream; events are concatenated and prediction calls summed. -/
def runTurns (ml : Option MLService) (s : SessionSt) :
    List (String × Option (List String)) → SessionSt × List Ev × Nat
  | [] => (s, [], 0)
  | (t, l) :: rest =>
    let r1 := stepTurn ml l s t
    let r2 := runTurns ml r1.1 rest
    (r2.1, r1.2.1 ++ r2.2.1, r1.2.2 + r2.2.2)

/-- An interleaving of turn processing and TTS-worker iterations. -/
inductive Act
  | turn (t : String) (llm : Option (List String))
  | work

def runSys (ml : Option MLService) (synth : String → Bool) (s : SessionSt) :
    List Act → SessionSt × List Ev
  | [] => (s, [])
  | .turn t l :: rest =>
    let r1 := stepTurn ml l s t
    let r2 := runSys ml synth r1.1 rest
    (r2.1, r1.2.1 ++ r2.2)
  | .work :: rest =>
    let r1 := workerStep synth s
    let r2 := runSys ml synth r1.1 rest
    (r2.1, r1.2 ++ r2.2)

/-- Process a list of interim (partial) transcript events in order. -/
def runInterims (ml : Option MLService) (llm : Option (List String))
    (s : SessionSt) : List String → SessionSt × List Ev
  | [] => (s, [])
  | t :: rest =>
    let r1 := mainStep ml llm s (.audioInterim t)
    let r2 := runInterims ml llm r1.1 rest
    (r2.1, r1.2.1 ++ r2.2)

def countDocReq (evs : List Ev) : Nat :=
  evs.countP (fun e => match e with | .docReq => true | _ => false)

def countElig (evs : List Ev) : Nat :=
  evs.countP (fun e => match e with | .eligRes _ => true | _ => false)

/-- Session states reachable from a fresh connection through any sequence of
main-loop events and TTS-worker iterations, with arbitrary collaborator
behaviour. -/
inductive Reach : SessionSt → Prop
  | init : Reach initSt
  | step (ml : Option MLService) (llm : Option (List String)) (e : InEv)
      {s : SessionSt} : Reach s → Reach (mainStep ml llm s e).1
  | work (synth : String → Bool) {s : SessionSt} :
      Reach s → Reach (workerStep synth s).1

/- ============ LLM output demultiplexer (spec-modelled) ============ -/

/-- Modelled from the spec: the first-occurrence splitter used as the
demultiplexer's reference contract.  `findSplit d s` is `none` when the
delimiter `d` does not occur in `s`, else `some (a, b)` with
`s = a ++ d ++ b` split at the leftmost occurrence. -/
def findSplit (d : List Char) : List Char → Option (List Char × List Char)
  | [] => if headSeg d [] then some ([], []) else none
  | c :: t =>
    if headSeg d (c :: t) then some ([], (c :: t).drop d.length)
    else (findSplit d t).map (fun pr => (c :: pr.1, pr.2))

/-- Length of the longest suffix of `b`, shorter than `d` itself, that is a
prefix of `d` (the hold-back needed to detect a delimiter spanning a chunk
boundary). -/
def borderGo (d b : List Char) : Nat → Nat
  | 0 => 0
  | m + 1 =>
    if headSeg (b.drop (b.length - (m + 1))) d then m + 1 else borderGo d b m

def maxBorder (d b : List Char) : Nat := borderGo d b (min b.length (d.length - 1))

/-- Modelled from the spec: demultiplexer mode — still forwarding speakable
text (holding back a possible delimiter prefix), or collecting the
structured-data block. -/
inductive DmMode
  | speak (hold : List Char)
  | collect (blk : List Char)
deriving DecidableEq, Repr

/-- Modelled from the spec (§4.4, the component itself is not under the
provided sources): one chunk step of the client's demultiplexing algorithm.
In speak mode the held-back text plus the new chunk is searched for the
delimiter: on a hit, everything before it is forwarded as speakable text and
the remainder starts the structured-data block; otherwise everything except
the longest possible delimiter prefix is forwarded and that suffix is held
back.  In collect mode chunks are buffered, never forwarded. -/
def dmStep (d : List Char) (st : List Char × DmMode) (chunk : List Char) :
    List Char × DmMode :=
  match st.2 with
  | .speak hold =>
    let b := hold ++ chunk
    match findSplit d b with
    | some pr => (st.1 ++ pr.1, .collect pr.2)
    | none =>
      let k := maxBorder d b
      (st.1 ++ b.take (b.length - k), .speak (b.drop (b.length - k)))
  | .collect blk => (st.1, .collect (blk ++ chunk))

/-- Modelled from the spec: run the demultiplexer over a whole chunk stream;
at stream end any held-back text is flushed as speakable (the delimiter
never appeared), and the collected block, if any, is returned. -/
def demux (d : List Char) (chunks : List (List Char)) :
    List Char × Option (List Char) :=
  match chunks.foldl (dmStep d) ([], .speak []) with
  | (sp, .speak hold) => (sp ++ hold, none)
  | (sp, .collect blk) => (sp, some blk)

/-- Modelled from the spec: the demultiplexer's end-to-end contract — the
concatenated model output split at the first delimiter occurrence, the part
before it speakable, the part after it the structured-data block; the whole
output speakable and no block when the delimiter never appears. -/
def splitSpec (d s : List Char) : List Char × Option (List Char) :=
  match findSplit d s with
  | some pr => (pr.1, some pr.2)
  | none => (s, none)

/-- The fixed textual delimiter of the agent's output convention. -/
def DELIM : List Char := "|||DELIM|||".toList

def chunksJoin (chunks : List (List Char)) : List Char := chunks.foldr (· ++ ·) []

/-- The end-of-stream packaging step of `demux`, split out for the proofs. -/
def dmFinish : List Char × DmMode → List Char × Option (List Char)
  | (sp, .speak hold) => (sp ++ hold, none)
  | (sp, .collect blk) => (sp, some blk)

/- ============ predicates and concrete fixtures ============ -/

/-- Range discipline of the profile's numeric fields: whenever present, each
value lies inside the window its extraction guard enforces. -/
def profOk (p : Profile) : Prop :=
  (∀ v, p.monthly_income = some v → 100 ≤ v ∧ v ≤ 1000000) ∧
  (∀ z, p.credit_score = some z → 300 ≤ z ∧ z ≤ 850) ∧
  (∀ v, p.loan_amount = some v → 1000 ≤ v ∧ v ≤ 10000000)

/-- A deterministic ML collaborator used in concrete runs. -/
def predRes0 : PredResult := ⟨1, "eligible", 1, "low", []⟩

def mlConst : MLService := fun _ => some predRes0

/-- Four transcripts that fill the four required fields (the LLM stream is
unavailable on these turns, which does not affect extraction). -/
def setupTurns : List (String × Option (List String)) :=
  [("my name is Al", none), ("my income is 500", none),
   ("my credit score is 750", none), ("i need a loan of 2,000", none)]

/-- Session state with all four fields collected, documents not verified. -/
def readyState : SessionSt := (runTurns none initSt setupTurns).1

/-- The spec's worked demultiplexer example, with the delimiter spanning a
chunk boundary. -/
def exampleChunks : List (List Char) :=
  ["Hello there.|||DE".toList, ("LIM|||\x7b\"name\":\"Bob\"\x7d").toList]

/-- Iterated `manual_transcript` processing, used to exhibit reachable
states concretely. -/
def manualSeq (ml : Option MLService) (llm : Option (List String)) :
    SessionSt → List String → SessionSt
  | s, [] => s
  | s, t :: rest => manualSeq ml llm (mainStep ml llm s (.manual t)).1 rest

/-- A concrete session: the four collecting turns followed by the
document-verification turn. -/
def verifiedSession : SessionSt :=
  manualSeq none none initSt
    ["my name is Al", "my income is 500", "my credit score is 750",
     "i need a loan of 2,000", "document verified"]

/- ============ helper lemmas: extraction structure ============ -/

lemma tryAmt_range {lo hi : ℚ} {t : List Char} {ps : List Re} {v : ℚ}
    (h : tryAmt lo hi t ps = some v) : lo ≤ v ∧ v ≤ hi := by
  induction ps with
  | nil => simp [tryAmt] at h
  | cons p ps ih =>
    rw [tryAmt] at h
    rcases hs : reSearch false p t with _ | g <;> rw [hs] at h
    · exact ih h
    · dsimp at h
      rcases hv : (if containsAnyWord (trimL (removeCommas g)) numWordsChk then
          some (parse_written_number (trimL (removeCommas g)))
        else parseFloatQ (trimL (removeCommas g))) with _ | x <;> rw [hv] at h
      · exact ih h
      · dsimp at h
        by_cases hr : lo ≤ x ∧ x ≤ hi
        · rw [if_pos hr] at h
          cases h
          exact hr
        · rw [if_neg hr] at h
          exact ih h

lemma tryScore_range {t : List Char} {ps : List Re} {v : ℤ}
    (h : tryScore t ps = some v) : 300 ≤ v ∧ v ≤ 850 := by
  induction ps with
  | nil => simp [tryScore] at h
  | cons p ps ih =>
    rw [tryScore] at h
    rcases hs : reSearch false p t with _ | g <;> rw [hs] at h
    · exact ih h
    · dsimp at h
      rcases hv : (if containsAnyWord (trimL g) scoreWordsChk then
          some (ratToInt (parse_written_number (trimL g)))
        else parseIntZ (trimL g)) with _ | x <;> rw [hv] at h
      · exact ih h
      · dsimp at h
        by_cases hr : 300 ≤ x ∧ x ≤ 850
        · rw [if_pos hr] at h
          cases h
          exact hr
        · rw [if_neg hr] at h
          exact ih h

/-- `extractName` touches only the `name` field. -/
lemma extractName_rest (t : List Char) (d : Profile) :
    (extractName t d).monthly_income = d.monthly_income ∧
    (extractName t d).credit_score = d.credit_score ∧
    (extractName t d).loan_amount = d.loan_amount ∧
    (extractName t d).document_verified = d.document_verified := by
  unfold extractName
  split
  · rcases tryName t namePatterns with _ | n <;> simp
  · simp

/-- `extractIncome` touches only `monthly_income`. -/
lemma extractIncome_rest (t : List Char) (d : Profile) :
    (extractIncome t d).name = d.name ∧
    (extractIncome t d).credit_score = d.credit_score ∧
    (extractIncome t d).loan_amount = d.loan_amount ∧
    (extractIncome t d).document_verified = d.document_verified := by
  unfold extractIncome
  split
  · rcases tryAmt 100 1000000 t incomePatterns with _ | v <;> simp
  · simp

/-- `extractScore` touches only `credit_score`. -/
lemma extractScore_rest (t : List Char) (d : Profile) :
    (extractScore t d).name = d.name ∧
    (extractScore t d).monthly_income = d.monthly_income ∧
    (extractScore t d).loan_amount = d.loan_amount ∧
    (extractScore t d).document_verified = d.document_verified := by
  unfold extractScore
  split
  · rcases tryScore t scorePatterns with _ | v <;> simp
  · simp

/-- `extractLoan` touches only `loan_amount`. -/
lemma extractLoan_rest (t : List Char) (d : Profile) :
    (extractLoan t d).name = d.name ∧
    (extractLoan t d).monthly_income = d.monthly_income ∧
    (extractLoan t d).credit_score = d.credit_score ∧
    (extractLoan t d).document_verified = d.document_verified := by
  unfold extractLoan
  split
  · rcases tryAmt 1000 10000000 t loanPatterns with _ | v <;> simp
  · simp

/-- A present field is never modified or removed, and an absent field can
only be filled with a range-validated value. -/
lemma extractName_name (t : List Char) (d : Profile) :
    (extractName t d).name = d.name ∨
      (d.name = none ∧ ∃ n, (extractName t d).name = some n) := by
  unfold extractName
  split
  · rcases tryName t namePatterns with _ | n
    · left; rfl
    · right
      refine ⟨by assumption, n, rfl⟩
  · left; rfl

lemma extractIncome_income (t : List Char) (d : Profile) :
    (extractIncome t d).monthly_income = d.monthly_income ∨
      (d.monthly_income = none ∧ ∃ v, (extractIncome t d).monthly_income = some v ∧
        100 ≤ v ∧ v ≤ 1000000) := by
  unfold extractIncome
  split
  · rcases hv : tryAmt 100 1000000 t incomePatterns with _ | v
    · left; rfl
    · right
      exact ⟨by assumption, v, rfl, tryAmt_range hv⟩
  · left; rfl

lemma extractScore_score (t : List Char) (d : Profile) :
    (extractScore t d).credit_score = d.credit_score ∨
      (d.credit_score = none ∧ ∃ v, (extractScore t d).credit_score = some v ∧
        300 ≤ v ∧ v ≤ 850) := by
  unfold extractScore
  split
  · rcases hv : tryScore t scorePatterns with _ | v
    · left; rfl
    · right
      exact ⟨by assumption, v, rfl, tryScore_range hv⟩
  · left; rfl

lemma extractLoan_loan (t : List Char) (d : Profile) :
    (extractLoan t d).loan_amount = d.loan_amount ∨
      (d.loan_amount = none ∧ ∃ v, (extractLoan t d).loan_amount = some v ∧
        1000 ≤ v ∧ v ≤ 10000000) := by
  unfold extractLoan
  split
  · rcases hv : tryAmt 1000 10000000 t loanPatterns with _ | v
    · left; rfl
    · right
      exact ⟨by assumption, v, rfl, tryAmt_range hv⟩
  · left; rfl

/- ============ helper lemmas: whole-extraction behaviour ============ -/

lemma extract_flag (t : String) (p : Profile) :
    (extract_structured_data t p).document_verified = p.document_verified := by
  unfold extract_structured_data
  rw [(extractLoan_rest _ _).2.2.2, (extractScore_rest _ _).2.2.2,
      (extractIncome_rest _ _).2.2.2, (extractName_rest _ _).2.2.2]

lemma extract_name (t : String) (p : Profile) :
    (extract_structured_data t p).name = p.name ∨
      (p.name = none ∧ ∃ n, (extract_structured_data t p).name = some n) := by
  unfold extract_structured_data
  rw [(extractLoan_rest _ _).1, (extractScore_rest _ _).1, (extractIncome_rest _ _).1]
  exact extractName_name _ _

lemma extract_income (t : String) (p : Profile) :
    (extract_structured_data t p).monthly_income = p.monthly_income ∨
      (p.monthly_income = none ∧
        ∃ v, (extract_structured_data t p).monthly_income = some v ∧
          100 ≤ v ∧ v ≤ 1000000) := by
  unfold extract_structured_data
  rw [(extractLoan_rest _ _).2.1, (extractScore_rest _ _).2.1]
  rcases extractIncome_income (lowerL t.toList) (extractName t.toList p) with h | ⟨h0, v, hv, hr⟩
  · rw [h, (extractName_rest _ _).1]
    left; rfl
  · right
    rw [(extractName_rest _ _).1] at h0
    exact ⟨h0, v, hv, hr⟩

lemma extract_score (t : String) (p : Profile) :
    (extract_structured_data t p).credit_score = p.credit_score ∨
      (p.credit_score = none ∧
        ∃ v, (extract_structured_data t p).credit_score = some v ∧
          300 ≤ v ∧ v ≤ 850) := by
  unfold extract_structured_data
  rw [(extractLoan_rest _ _).2.2.1]
  rcases extractScore_score (lowerL t.toList)
      (extractIncome (lowerL t.toList) (extractName t.toList p)) with h | ⟨h0, v, hv, hr⟩
  · rw [h, (extractIncome_rest _ _).2.1, (extractName_rest _ _).2.1]
    left; rfl
  · right
    rw [(extractIncome_rest _ _).2.1, (extractName_rest _ _).2.1] at h0
    exact ⟨h0, v, hv, hr⟩

lemma extract_loan (t : String) (p : Profile) :
    (extract_structured_data t p).loan_amount = p.loan_amount ∨
      (p.loan_amount = none ∧
        ∃ v, (extract_structured_data t p).loan_amount = some v ∧
          1000 ≤ v ∧ v ≤ 10000000) := by
  unfold extract_structured_data
  rcases extractLoan_loan (lowerL t.toList)
      (extractScore (lowerL t.toList)
        (extractIncome (lowerL t.toList) (extractName t.toList p)))
      with h | ⟨h0, v, hv, hr⟩
  · rw [h, (extractScore_rest _ _).2.2.1, (extractIncome_rest _ _).2.2.1,
        (extractName_rest _ _).2.2.1]
    left; rfl
  · right
    rw [(extractScore_rest _ _).2.2.1, (extractIncome_rest _ _).2.2.1,
        (extractName_rest _ _).2.2.1] at h0
    exact ⟨h0, v, hv, hr⟩

lemma extract_name_keep {t : String} {p : Profile} {v : String}
    (h : p.name = some v) : (extract_structured_data t p).name = some v := by
  rcases extract_name t p with h2 | ⟨h0, _⟩
  · rw [h2, h]
  · rw [h] at h0; cases h0

lemma extract_income_keep {t : String} {p : Profile} {v : ℚ}
    (h : p.monthly_income = some v) :
    (extract_structured_data t p).monthly_income = some v := by
  rcases extract_income t p with h2 | ⟨h0, _⟩
  · rw [h2, h]
  · rw [h] at h0; cases h0

lemma extract_score_keep {t : String} {p : Profile} {v : ℤ}
    (h : p.credit_score = some v) :
    (extract_structured_data t p).credit_score = some v := by
  rcases extract_score t p with h2 | ⟨h0, _⟩
  · rw [h2, h]
  · rw [h] at h0; cases h0

lemma extract_loan_keep {t : String} {p : Profile} {v : ℚ}
    (h : p.loan_amount = some v) :
    (extract_structured_data t p).loan_amount = some v := by
  rcases extract_loan t p with h2 | ⟨h0, _⟩
  · rw [h2, h]
  · rw [h] at h0; cases h0

/-- Fields only grow: `hasAllB` is preserved by extraction. -/
lemma extract_hasAll {t : String} {p : Profile} (h : hasAllB p = true) :
    hasAllB (extract_structured_data t p) = true := by
  unfold hasAllB at h ⊢
  simp only [Bool.and_eq_true, Option.isSome_iff_exists] at h ⊢
  obtain ⟨⟨⟨⟨n, hn⟩, ⟨i, hi⟩⟩, ⟨c, hc⟩⟩, ⟨l, hl⟩⟩ := h
  exact ⟨⟨⟨⟨n, extract_name_keep hn⟩, ⟨i, extract_income_keep hi⟩⟩,
    ⟨c, extract_score_keep hc⟩⟩, ⟨l, extract_loan_keep hl⟩⟩

/- ============ helper lemmas: per-turn behaviour ============ -/

lemma extract_empty (p : Profile) : extract_structured_data "" p = p := by
  have ht : ("" : String).toList = [] := rfl
  have hn : tryName [] namePatterns = none := by rfl
  have hi : tryAmt 100 1000000 (lowerL []) incomePatterns = none := by rfl
  have hs : tryScore (lowerL []) scorePatterns = none := by rfl
  have hl : tryAmt 1000 10000000 (lowerL []) loanPatterns = none := by rfl
  unfold extract_structured_data extractName extractIncome extractScore extractLoan
  rw [ht, hn]
  simp only [ite_self]
  rw [hi]
  simp only [ite_self]
  rw [hs]
  simp only [ite_self]
  rw [hl]
  simp only [ite_self]

lemma foldToks_counts (toks : List String) : ∀ buf : List Char,
    countDocReq (foldToks buf toks).2.2.2 = 0 ∧
    countElig (foldToks buf toks).2.2.2 = 0 := by
  induction toks with
  | nil => intro buf; simp [foldToks, countDocReq, countElig]
  | cons raw rest ih =>
    intro buf
    rw [foldToks]
    by_cases h : rstripL raw.toList = []
    · rw [if_pos h]; exact ih buf
    · rw [if_neg h]
      simp only [countDocReq, countElig, List.countP_cons] at *
      constructor
      · exact (ih _).1
      · exact (ih _).2

/-- The profile after a turn: either unchanged (empty text) or the result of
extraction over the possibly-blanked text and possibly flag-set profile. -/
lemma stepTurn_profile (ml : Option MLService) (llm : Option (List String))
    (s : SessionSt) (text : String) :
    (stepTurn ml llm s text).1.profile = s.profile ∨
    (stepTurn ml llm s text).1.profile =
      extract_structured_data
        (if seg docPhraseL (lowerL text.toList) then "" else text)
        (if seg docPhraseL (lowerL text.toList) then
          { s.profile with document_verified := true } else s.profile) := by
  unfold stepTurn
  split
  · left; rfl
  · cases llm <;> (right; rfl)

lemma countDocReq_append (a b : List Ev) :
    countDocReq (a ++ b) = countDocReq a + countDocReq b := by
  simp [countDocReq, List.countP_append]

lemma countElig_append (a b : List Ev) :
    countElig (a ++ b) = countElig a + countElig b := by
  simp [countElig, List.countP_append]

/-- A nonempty turn whose text does not contain the verification phrase:
profile updated by extraction only; a `document_verification_required` event
is emitted exactly when the extracted profile is unverified with all four
fields present; `eligibility_result` events and scorer calls occur only when
the profile is verified. -/
lemma stepTurn_noPhrase (ml : Option MLService) (toks : List String)
    (s : SessionSt) (text : String) (hne : ¬ trimL text.toList = [])
    (hnp : seg docPhraseL (lowerL text.toList) = false) :
    (stepTurn ml (some toks) s text).1.profile =
      extract_structured_data text s.profile ∧
    countDocReq (stepTurn ml (some toks) s text).2.1 =
      (if (extract_structured_data text s.profile).document_verified = false ∧
          hasAllB (extract_structured_data text s.profile) = true then 1 else 0) ∧
    countElig (stepTurn ml (some toks) s text).2.1 =
      (if (extract_structured_data text s.profile).document_verified = true ∧
          (predictLE (extract_structured_data text s.profile) ml).1.isSome = true
        then 1 else 0) ∧
    (stepTurn ml (some toks) s text).2.2 =
      (if (extract_structured_data text s.profile).document_verified = true then
        (predictLE (extract_structured_data text s.profile) ml).2 else 0) := by
  unfold stepTurn
  rw [if_neg hne]
  simp only [hnp, Bool.false_eq_true, if_false]
  refine ⟨trivial, ?_, ?_, ?_⟩
  · simp only [countDocReq_append]
    have h1 : countDocReq (if extract_structured_data text s.profile = s.profile
        then ([] : List Ev)
        else [Ev.structuredUpdate (extract_structured_data text s.profile)]) = 0 := by
      split <;> rfl
    rw [h1, (foldToks_counts toks s.ttsBuf.toList).1]
    rcases hv : (extract_structured_data text s.profile).document_verified with _ | _
    · simp only [Bool.false_eq_true, if_false]
      rcases hall : hasAllB (extract_structured_data text s.profile) with _ | _ <;>
        simp [countDocReq]
    · simp only [if_true]
      rcases hp : (predictLE (extract_structured_data text s.profile) ml).1 with _ | r <;>
        simp [countDocReq]
  · simp only [countElig_append]
    have h1 : countElig (if extract_structured_data text s.profile = s.profile
        then ([] : List Ev)
        else [Ev.structuredUpdate (extract_structured_data text s.profile)]) = 0 := by
      split <;> rfl
    rw [h1, (foldToks_counts toks s.ttsBuf.toList).2]
    rcases hv : (extract_structured_data text s.profile).document_verified with _ | _
    · simp only [Bool.false_eq_true, if_false]
      rcases hall : hasAllB (extract_structured_data text s.profile) with _ | _ <;>
        simp [countElig]
    · simp only [if_true]
      rcases hp : (predictLE (extract_structured_data text s.profile) ml).1 with _ | r <;>
        simp [countElig, hp]
  · rcases hv : (extract_structured_data text s.profile).document_verified with _ | _ <;>
      simp [hv]

/-- A turn whose text contains "document verified", from a state where the
prediction succeeds: the flag is set, the prediction is run and its result
event emitted twice (once in the verification branch, once at end of turn),
no `document_verification_required` is emitted, and the scorer is invoked
twice. -/
lemma stepTurn_phrase (ml : Option MLService) (toks : List String)
    (s : SessionSt) (text : String) (r : PredResult)
    (hne : ¬ trimL text.toList = [])
    (hp : seg docPhraseL (lowerL text.toList) = true)
    (hml : predictLE { s.profile with document_verified := true } ml = (some r, 1)) :
    (stepTurn ml (some toks) s text).1.profile =
      { s.profile with document_verified := true } ∧
    countElig (stepTurn ml (some toks) s text).2.1 = 2 ∧
    countDocReq (stepTurn ml (some toks) s text).2.1 = 0 ∧
    (stepTurn ml (some toks) s text).2.2 = 2 := by
  unfold stepTurn
  rw [if_neg hne]
  simp only [hp, if_true, extract_empty, hml]
  refine ⟨trivial, ?_, ?_, trivial⟩
  · simp only [countElig_append, if_pos rfl]
    rw [(foldToks_counts toks s.ttsBuf.toList).2]
    have hflag : ({ s.profile with document_verified := true } : Profile).document_verified
        = true := rfl
    simp [countElig, hflag, hml]
  · simp only [countDocReq_append, if_pos rfl]
    rw [(foldToks_counts toks s.ttsBuf.toList).1]
    have hflag : ({ s.profile with document_verified := true } : Profile).document_verified
        = true := rfl
    simp [countDocReq, hflag, hml]

lemma stepTurn_keep_name {ml llm s text v} (hv : s.profile.name = some v) :
    (stepTurn ml llm s text).1.profile.name = some v := by
  rcases stepTurn_profile ml llm s text with h | h
  · rw [h]; exact hv
  · rw [h]
    apply extract_name_keep
    split <;> exact hv

lemma stepTurn_keep_income {ml llm s text v} (hv : s.profile.monthly_income = some v) :
    (stepTurn ml llm s text).1.profile.monthly_income = some v := by
  rcases stepTurn_profile ml llm s text with h | h
  · rw [h]; exact hv
  · rw [h]
    apply extract_income_keep
    split <;> exact hv

lemma stepTurn_keep_score {ml llm s text v} (hv : s.profile.credit_score = some v) :
    (stepTurn ml llm s text).1.profile.credit_score = some v := by
  rcases stepTurn_profile ml llm s text with h | h
  · rw [h]; exact hv
  · rw [h]
    apply extract_score_keep
    split <;> exact hv

lemma stepTurn_keep_loan {ml llm s text v} (hv : s.profile.loan_amount = some v) :
    (stepTurn ml llm s text).1.profile.loan_amount = some v := by
  rcases stepTurn_profile ml llm s text with h | h
  · rw [h]; exact hv
  · rw [h]
    apply extract_loan_keep
    split <;> exact hv

lemma stepTurn_hasAll {ml llm s text} (h : hasAllB s.profile = true) :
    hasAllB (stepTurn ml llm s text).1.profile = true := by
  unfold hasAllB at h
  simp only [Bool.and_eq_true, Option.isSome_iff_exists] at h
  obtain ⟨⟨⟨⟨n, hn⟩, ⟨i, hi⟩⟩, ⟨c, hc⟩⟩, ⟨l, hl⟩⟩ := h
  unfold hasAllB
  simp only [Bool.and_eq_true, Option.isSome_iff_exists]
  exact ⟨⟨⟨⟨n, stepTurn_keep_name hn⟩, ⟨i, stepTurn_keep_income hi⟩⟩,
    ⟨c, stepTurn_keep_score hc⟩⟩, ⟨l, stepTurn_keep_loan hl⟩⟩

lemma stepTurn_flag_mono {ml llm s text} (h : s.profile.document_verified = true) :
    (stepTurn ml llm s text).1.profile.document_verified = true := by
  rcases stepTurn_profile ml llm s text with h2 | h2
  · rw [h2]; exact h
  · rw [h2, extract_flag]
    split <;> simp [h]

lemma extract_profOk {t : String} {p : Profile} (h : profOk p) :
    profOk (extract_structured_data t p) := by
  obtain ⟨hi, hc, hl⟩ := h
  refine ⟨?_, ?_, ?_⟩
  · intro v hv
    rcases extract_income t p with h2 | ⟨_, w, hw, hr⟩
    · exact hi v (h2 ▸ hv)
    · rw [hw] at hv
      cases hv
      exact hr
  · intro z hz
    rcases extract_score t p with h2 | ⟨_, w, hw, hr⟩
    · exact hc z (h2 ▸ hz)
    · rw [hw] at hz
      cases hz
      exact hr
  · intro v hv
    rcases extract_loan t p with h2 | ⟨_, w, hw, hr⟩
    · exact hl v (h2 ▸ hv)
    · rw [hw] at hv
      cases hv
      exact hr

lemma stepTurn_profOk {ml llm s text} (h : profOk s.profile) :
    profOk (stepTurn ml llm s text).1.profile := by
  rcases stepTurn_profile ml llm s text with h2 | h2
  · rw [h2]; exact h
  · rw [h2]
    apply extract_profOk
    split
    · exact ⟨h.1, h.2.1, h.2.2⟩
    · exact h

lemma mainStep_profOk {ml llm s e} (h : profOk s.profile) :
    profOk (mainStep ml llm s e).1.profile := by
  cases e with
  | audioFinal t =>
    simp only [mainStep]
    split
    · exact h
    · exact stepTurn_profOk h
  | audioInterim t => exact h
  | ping => exact h
  | manual t =>
    simp only [mainStep]
    split
    · exact h
    · exact stepTurn_profOk h

lemma workerStep_profile (synth : String → Bool) (s : SessionSt) :
    (workerStep synth s).1.profile = s.profile := by
  unfold workerStep
  rcases s.queue with _ | ⟨⟨i, snt⟩, rest⟩ <;> rfl

/-- Every reachable session state satisfies the numeric range discipline. -/
lemma reach_profOk {s : SessionSt} (h : Reach s) : profOk s.profile := by
  induction h with
  | init =>
    refine ⟨?_, ?_, ?_⟩ <;> intro v hv <;> cases hv
  | step ml llm e hr ih => exact mainStep_profOk ih
  | work synth hr ih => rw [workerStep_profile]; exact ih

/- ============ helper lemmas: characters occurring in matched text ============ -/

lemma headSeg_iff {w : List Char} : ∀ {s : List Char},
    headSeg w s = true ↔ ∃ r, s = w ++ r := by
  induction w with
  | nil => intro s; simp [headSeg]
  | cons c w ih =>
    intro s
    cases s with
    | nil => simp [headSeg]
    | cons d t =>
      rw [headSeg]
      simp only [Bool.and_eq_true, decide_eq_true_eq, ih]
      constructor
      · rintro ⟨hc, r, hr⟩
        exact ⟨r, by rw [hc, hr]; rfl⟩
      · rintro ⟨r, hr⟩
        cases hr
        exact ⟨rfl, r, rfl⟩

lemma seg_iff {w : List Char} : ∀ {s : List Char},
    seg w s = true ↔ ∃ a b, s = a ++ w ++ b := by
  intro s
  induction s with
  | nil =>
    rw [seg, headSeg_iff]
    constructor
    · rintro ⟨r, hr⟩
      exact ⟨[], r, hr⟩
    · rintro ⟨a, b, hab⟩
      rcases a with _ | ⟨x, a⟩
      · exact ⟨b, hab⟩
      · cases hab
  | cons c t ih =>
    rw [seg]
    simp only [Bool.or_eq_true, headSeg_iff, ih]
    constructor
    · rintro (⟨r, hr⟩ | ⟨a, b, hab⟩)
      · exact ⟨[], r, hr⟩
      · exact ⟨c :: a, b, by rw [hab]; rfl⟩
    · rintro ⟨a, b, hab⟩
      rcases a with _ | ⟨x, a⟩
      · exact Or.inl ⟨b, hab⟩
      · right
        injection hab with h1 h2
        exact ⟨a, b, h2⟩

lemma slice_parts (t : List Char) (a b : Nat) :
    t = t.take a ++ ((t.drop a).take b ++ (t.drop a).drop b) := by
  rw [List.take_append_drop, List.take_append_drop]

lemma reSearch_slice {ci : Bool} {r : Re} {t g : List Char}
    (h : reSearch ci r t = some g) : ∃ x y, t = x ++ g ++ y := by
  unfold reSearch at h
  rcases hs : searchGo ci r t (t.length + 1) 0 with _ | ⟨a, b⟩ <;> rw [hs] at h
  · cases h
  · cases h
    exact ⟨t.take a, (t.drop a).drop (b - a),
      by rw [List.append_assoc]; exact slice_parts t a (b - a)⟩

lemma dropTrail_parts (u : List Char) : ∃ y, u = dropTrail u ++ y := by
  refine ⟨(u.reverse.takeWhile isWs).reverse, ?_⟩
  unfold dropTrail
  conv_lhs => rw [← List.reverse_reverse u,
    ← List.takeWhile_append_dropWhile (p := isWs) (l := u.reverse)]
  rw [List.reverse_append]

lemma trimL_parts (s : List Char) : ∃ x y, s = x ++ trimL s ++ y := by
  obtain ⟨y, hy⟩ := dropTrail_parts (s.dropWhile isWs)
  refine ⟨s.takeWhile isWs, y, ?_⟩
  conv_lhs => rw [← List.takeWhile_append_dropWhile (p := isWs) (l := s), hy]
  rw [List.append_assoc]
  rfl

lemma seg_chain {w mid s : List Char} (hw : seg w mid = true)
    (hm : ∃ x y, s = x ++ mid ++ y) : seg w s = true := by
  obtain ⟨a, b, hab⟩ := seg_iff.mp hw
  obtain ⟨x, y, hxy⟩ := hm
  apply seg_iff.mpr
  exact ⟨x ++ a, b ++ y, by rw [hxy, hab]; simp [List.append_assoc]⟩

lemma mem_of_parts {c : Char} {mid s : List Char} (hc : c ∈ mid)
    (hm : ∃ x y, s = x ++ mid ++ y) : c ∈ s := by
  obtain ⟨x, y, hxy⟩ := hm
  rw [hxy]
  simp [hc]

lemma mem_removeCommas {c : Char} {s : List Char} (h : c ∈ removeCommas s) :
    c ∈ s := (List.mem_filter.mp h).1

lemma removeCommas_parts {g tl : List Char} (h : ∃ x y, tl = x ++ g ++ y) :
    ∃ x y, removeCommas tl = x ++ removeCommas g ++ y := by
  obtain ⟨x, y, hxy⟩ := h
  exact ⟨removeCommas x, removeCommas y,
    by rw [hxy]; simp [removeCommas, List.filter_append]⟩

lemma seg_removeCommas {w s : List Char} (h : seg w s = true)
    (hw : removeCommas w = w) : seg w (removeCommas s) = true := by
  obtain ⟨a, b, hab⟩ := seg_iff.mp h
  apply seg_iff.mpr
  refine ⟨removeCommas a, removeCommas b, ?_⟩
  rw [hab]
  unfold removeCommas at hw ⊢
  rw [List.filter_append, List.filter_append, hw]

lemma parseFloatQ_digit {s : List Char} {v : ℚ} (h : parseFloatQ s = some v) :
    ∃ c ∈ s, c.isDigit = true := by
  rcases hip : s.takeWhile Char.isDigit with _ | ⟨c, t⟩
  · exfalso
    simp [parseFloatQ, hip] at h
  · have hmem : c ∈ s.takeWhile Char.isDigit := by
      rw [hip]; exact List.mem_cons_self _ _
    refine ⟨c, ?_, List.mem_takeWhile_imp hmem⟩
    have hsplit := List.takeWhile_append_dropWhile (p := Char.isDigit) (l := s)
    rw [← hsplit]
    exact List.mem_append_left _ hmem

lemma parseIntZ_digit {s : List Char} {v : ℤ} (h : parseIntZ s = some v) :
    ∃ c ∈ s, c.isDigit = true := by
  unfold parseIntZ at h
  split at h
  · rename_i hc
    rcases s with _ | ⟨c, t⟩
    · exact absurd rfl hc.1
    · refine ⟨c, List.mem_cons_self _ _, ?_⟩
      have := hc.2
      rw [List.all_cons, Bool.and_eq_true] at this
      exact this.1
  · cases h

lemma containsAnyWord_spec {s : List Char} {ws : List String}
    (h : containsAnyWord s ws = true) : ∃ w ∈ ws, seg w.toList s = true := by
  unfold containsAnyWord at h
  simpa using List.any_eq_true.mp h

/-- If the income/loan loop produced a value, the turn text contains a digit
or (after comma removal) one of the checked number words. -/
lemma tryAmt_src {lo hi : ℚ} {tl : List Char} {v : ℚ} :
    ∀ {ps : List Re}, tryAmt lo hi tl ps = some v →
      (∃ c ∈ tl, c.isDigit = true) ∨
      ∃ w ∈ numWordsChk, seg w.toList (removeCommas tl) = true := by
  intro ps
  induction ps with
  | nil => intro h; simp [tryAmt] at h
  | cons p ps ih =>
    intro h
    rw [tryAmt] at h
    rcases hs : reSearch false p tl with _ | g <;> rw [hs] at h
    · exact ih h
    · dsimp at h
      have hslice : ∃ x y, tl = x ++ g ++ y := reSearch_slice hs
      rcases hcw : containsAnyWord (trimL (removeCommas g)) numWordsChk with _ | _
      · simp only [hcw, Bool.false_eq_true, if_false] at h
        rcases hv : parseFloatQ (trimL (removeCommas g)) with _ | x <;> rw [hv] at h
        · exact ih h
        · left
          obtain ⟨c, hcm, hcd⟩ := parseFloatQ_digit hv
          have h1 : c ∈ removeCommas g := mem_of_parts hcm (trimL_parts _)
          exact ⟨c, mem_of_parts (mem_removeCommas h1) hslice, hcd⟩
      · right
        obtain ⟨w, hw, hsg⟩ := containsAnyWord_spec hcw
        exact ⟨w, hw,
          seg_chain (seg_chain hsg (trimL_parts _)) (removeCommas_parts hslice)⟩

/-- Same for the credit-score loop (its word list is contained in
`numWordsChk` and all words are comma-free). -/
lemma tryScore_src {tl : List Char} {v : ℤ} :
    ∀ {ps : List Re}, tryScore tl ps = some v →
      (∃ c ∈ tl, c.isDigit = true) ∨
      ∃ w ∈ numWordsChk, seg w.toList (removeCommas tl) = true := by
  intro ps
  induction ps with
  | nil => intro h; simp [tryScore] at h
  | cons p ps ih =>
    intro h
    rw [tryScore] at h
    rcases hs : reSearch false p tl with _ | g <;> rw [hs] at h
    · exact ih h
    · dsimp at h
      have hslice : ∃ x y, tl = x ++ g ++ y := reSearch_slice hs
      rcases hcw : containsAnyWord (trimL g) scoreWordsChk with _ | _
      · simp only [hcw, Bool.false_eq_true, if_false] at h
        rcases hv : parseIntZ (trimL g) with _ | x <;> rw [hv] at h
        · exact ih h
        · left
          obtain ⟨c, hcm, hcd⟩ := parseIntZ_digit hv
          have h1 : c ∈ g := mem_of_parts hcm (trimL_parts _)
          exact ⟨c, mem_of_parts h1 hslice, hcd⟩
      · right
        obtain ⟨w, hw, hsg⟩ := containsAnyWord_spec hcw
        have hsub : w ∈ numWordsChk ∧ removeCommas w.toList = w.toList := by
          revert hw
          have : ∀ u ∈ scoreWordsChk, u ∈ numWordsChk ∧
              removeCommas u.toList = u.toList := by decide
          exact this w
        have hseg2 : seg w.toList tl = true :=
          seg_chain (seg_chain hsg (trimL_parts _)) hslice
        exact ⟨w, hsub.1, seg_removeCommas hseg2 hsub.2⟩

/- ============ helper lemmas: the demultiplexer refines its contract ============ -/

lemma headSeg_of_le {d : List Char} : ∀ {u e : List Char},
    headSeg d (u ++ e) = true → d.length ≤ u.length → headSeg d u = true := by
  induction d with
  | nil => intro u e _ _; rfl
  | cons c d ih =>
    intro u e h hl
    cases u with
    | nil => simp at hl
    | cons b u2 =>
      rw [List.cons_append, headSeg, Bool.and_eq_true] at h
      rw [headSeg, Bool.and_eq_true]
      exact ⟨h.1, ih h.2 (by simpa using hl)⟩

lemma findSplit_none_iff {d : List Char} (hd : d ≠ []) : ∀ {s : List Char},
    findSplit d s = none ↔ ∀ j, ¬ headSeg d (s.drop j) = true := by
  intro s
  induction s with
  | nil =>
    rw [findSplit]
    have h0 : headSeg d [] = false := by
      cases d with
      | nil => exact absurd rfl hd
      | cons c t => rfl
    simp only [h0, Bool.false_eq_true, if_false]
    constructor
    · intro _ j
      simp [List.drop_nil, h0]
    · intro _; trivial
  | cons c t ih =>
    rw [findSplit]
    by_cases h0 : headSeg d (c :: t) = true
    · simp only [h0, if_true]
      constructor
      · intro h; cases h
      · intro h
        exact absurd h0 (by simpa using h 0)
    · simp only [h0, if_false, Bool.false_eq_true]
      constructor
      · intro h j
        cases j with
        | zero => simpa using h0
        | succ j =>
          have := (ih.mp (by
            rcases hf : findSplit d t with _ | pr
            · rfl
            · rw [hf] at h; cases h)) j
          simpa using this
      · intro h
        have ht : findSplit d t = none := ih.mpr (fun j => by simpa using h (j + 1))
        rw [ht]; rfl

lemma findSplit_eq {d : List Char} : ∀ {s a r : List Char},
    findSplit d s = some (a, r) → s = a ++ d ++ r ∧ d.length ≤ s.length := by
  intro s
  induction s with
  | nil =>
    intro a r h
    rw [findSplit] at h
    split at h
    · rename_i h0
      have : d = [] := by
        obtain ⟨x, hx⟩ := headSeg_iff.mp h0
        rcases d with _ | _
        · rfl
        · cases hx
      cases h
      simp [this]
    · cases h
  | cons c t ih =>
    intro a r h
    rw [findSplit] at h
    split at h
    · rename_i h0
      cases h
      obtain ⟨x, hx⟩ := headSeg_iff.mp h0
      have hlen : d.length ≤ (c :: t).length := by
        rw [hx]; simp
      constructor
      · rw [hx, List.nil_append, List.drop_append_eq_append_drop]
        simp
      · exact hlen
    · rcases hf : findSplit d t with _ | ⟨a2, r2⟩ <;> rw [hf] at h
      · cases h
      · cases h
        obtain ⟨he, hl⟩ := ih hf
        constructor
        · rw [List.cons_append, List.cons_append, ← he]
        · simp only [List.length_cons]
          omega

lemma findSplit_ext {d : List Char} : ∀ {s a r : List Char} (e : List Char),
    findSplit d s = some (a, r) → findSplit d (s ++ e) = some (a, r ++ e) := by
  intro s
  induction s with
  | nil =>
    intro a r e h
    rw [findSplit] at h
    split at h
    · rename_i h0
      have hd : d = [] := by
        obtain ⟨x, hx⟩ := headSeg_iff.mp h0
        rcases d with _ | _
        · rfl
        · cases hx
      cases h
      subst hd
      cases e with
      | nil => rfl
      | cons c t => rw [List.nil_append, findSplit]; rfl
    · cases h
  | cons c t ih =>
    intro a r e h
    rw [findSplit] at h
    split at h
    · rename_i h0
      cases h
      obtain ⟨x, hx⟩ := headSeg_iff.mp h0
      have h1 : headSeg d ((c :: t) ++ e) = true := by
        apply headSeg_iff.mpr
        exact ⟨x ++ e, by rw [hx, List.append_assoc]⟩
      rw [List.cons_append] at h1 ⊢
      rw [findSplit, if_pos h1]
      have hlen : d.length ≤ (c :: t).length := by rw [hx]; simp
      congr 1
      rw [← List.cons_append, List.drop_append_eq_append_drop,
          Nat.sub_eq_zero_of_le hlen, List.drop_zero]
    · rename_i h0
      rcases hf : findSplit d t with _ | ⟨a2, r2⟩ <;> rw [hf] at h
      · cases h
      · cases h
        have h1 : headSeg d ((c :: t) ++ e) = false := by
          rcases h2 : headSeg d ((c :: t) ++ e) with _ | _
          · rfl
          · exfalso
            have hlen : d.length ≤ (c :: t).length := by
              have := (findSplit_eq hf).2
              simp only [List.length_cons]
              omega
            rw [List.cons_append] at h2
            exact h0 (headSeg_of_le h2 hlen)
        rw [List.cons_append] at h1 ⊢
        rw [findSplit, if_neg (by simp [h1]), ih e hf]
        rfl

lemma findSplit_app_left {d : List Char} : ∀ {E x : List Char},
    (∀ j, j < E.length → ¬ headSeg d ((E ++ x).drop j) = true) →
    findSplit d (E ++ x) = (findSplit d x).map (fun pr => (E ++ pr.1, pr.2)) := by
  intro E
  induction E with
  | nil =>
    intro x _
    rw [List.nil_append]
    rcases h : findSplit d x with _ | ⟨a, r⟩ <;> simp
  | cons c E ih =>
    intro x hocc
    rw [List.cons_append, findSplit]
    have h0 : headSeg d (c :: (E ++ x)) = false := by
      have := hocc 0 (by simp)
      simpa using this
    rw [if_neg (by simp [h0])]
    rw [ih (fun j hj => by simpa using hocc (j + 1) (by simpa using hj))]
    rcases h : findSplit d x with _ | ⟨a, r⟩ <;> simp

lemma borderGo_le (d b : List Char) : ∀ m, borderGo d b m ≤ m := by
  intro m
  induction m with
  | zero => simp [borderGo]
  | succ m ih =>
    rw [borderGo]
    split
    · exact Nat.le_refl _
    · exact Nat.le_trans ih (Nat.le_succ _)

lemma borderGo_headSeg (d b : List Char) : ∀ m,
    headSeg (b.drop (b.length - borderGo d b m)) d = true := by
  intro m
  induction m with
  | zero =>
    simp only [borderGo, Nat.sub_zero, List.drop_length]
    rfl
  | succ m ih =>
    rw [borderGo]
    split
    · assumption
    · exact ih

lemma borderGo_max (d b : List Char) : ∀ m m', m' ≤ m →
    headSeg (b.drop (b.length - m')) d = true → m' ≤ borderGo d b m := by
  intro m
  induction m with
  | zero =>
    intro m' hm _
    simp only [borderGo]
    exact hm
  | succ m ih =>
    intro m' hm hseg
    rw [borderGo]
    split
    · exact hm
    · rename_i hfail
      rcases Nat.lt_or_ge m' (m + 1) with h | h
      · exact ih m' (Nat.lt_succ_iff.mp h) hseg
      · exfalso
        have : m' = m + 1 := Nat.le_antisymm hm h
        rw [this] at hseg
        exact hfail hseg

lemma maxBorder_lt {d b : List Char} (hd : d ≠ []) : maxBorder d b < d.length := by
  have h1 : maxBorder d b ≤ min b.length (d.length - 1) := borderGo_le d b _
  have h2 : 1 ≤ d.length := by
    cases d with
    | nil => exact absurd rfl hd
    | cons c t => simp
  omega

lemma maxBorder_le_len (d b : List Char) : maxBorder d b ≤ b.length := by
  have h1 : maxBorder d b ≤ min b.length (d.length - 1) := borderGo_le d b _
  omega

/-- No delimiter occurrence in any extension of `b` can begin strictly before
the held-back suffix of `b`. -/
lemma no_occ_before_border {d b : List Char} (hd : d ≠ [])
    (hnone : findSplit d b = none) (e : List Char) :
    ∀ j, j < b.length - maxBorder d b → ¬ headSeg d ((b ++ e).drop j) = true := by
  intro j hj hocc
  have hjb : j ≤ b.length := by omega
  have hsplit : (b ++ e).drop j = b.drop j ++ e := by
    rw [List.drop_append_eq_append_drop, Nat.sub_eq_zero_of_le hjb, List.drop_zero]
  rw [hsplit] at hocc
  rcases Nat.lt_or_ge (b.length - j) d.length with hcase | hcase
  · -- the occurrence would straddle the end of `b`
    obtain ⟨x, hx⟩ := headSeg_iff.mp hocc
    have hlen : (b.drop j).length = b.length - j := List.length_drop _ _
    have hbdj : b.drop j = d.take (b.length - j) := by
      have h2 := congrArg (List.take (b.length - j)) hx
      rw [List.take_append_eq_append_take, List.take_append_eq_append_take] at h2
      rw [hlen, Nat.sub_self, List.take_zero, List.append_nil] at h2
      rw [List.take_of_length_le (le_of_eq hlen)] at h2
      rw [Nat.sub_eq_zero_of_le (le_of_lt hcase), List.take_zero, List.append_nil] at h2
      exact h2
    have hhs : headSeg (b.drop (b.length - (b.length - j))) d = true := by
      have hj2 : b.length - (b.length - j) = j := by omega
      rw [hj2]
      apply headSeg_iff.mpr
      exact ⟨d.drop (b.length - j), by rw [hbdj, List.take_append_drop]⟩
    have hle : b.length - j ≤ min b.length (d.length - 1) := by
      apply Nat.le_min.mpr
      constructor
      · omega
      · omega
    have hmax := borderGo_max d b (min b.length (d.length - 1)) (b.length - j) hle hhs
    have hmb : maxBorder d b = borderGo d b (min b.length (d.length - 1)) := rfl
    omega
  · -- the occurrence would lie wholly inside `b`
    have h2 : headSeg d (b.drop j) = true :=
      headSeg_of_le hocc (by rw [List.length_drop]; omega)
    exact ((findSplit_none_iff hd).mp hnone j) h2

lemma dmCollect (d : List Char) : ∀ (chunks : List (List Char)) (sp blk : List Char),
    dmFinish (chunks.foldl (dmStep d) (sp, .collect blk)) =
      (sp, some (blk ++ chunksJoin chunks)) := by
  intro chunks
  induction chunks with
  | nil => intro sp blk; simp [dmFinish, chunksJoin]
  | cons c cs ih =>
    intro sp blk
    rw [List.foldl_cons]
    have hstep : dmStep d (sp, .collect blk) c = (sp, .collect (blk ++ c)) := rfl
    rw [hstep, ih]
    simp [chunksJoin, List.append_assoc]

/-- Main invariant of the demultiplexer run: from speak mode with a held-back
proper delimiter prefix, the machine computes exactly the first-occurrence
split of the remaining input prefixed by the held-back text. -/
lemma dmRun (d : List Char) (hd : d ≠ []) :
    ∀ (chunks : List (List Char)) (sp hold : List Char), hold.length < d.length →
    dmFinish (chunks.foldl (dmStep d) (sp, .speak hold)) =
      (match findSplit d (hold ++ chunksJoin chunks) with
       | some pr => (sp ++ pr.1, some pr.2)
       | none => (sp ++ (hold ++ chunksJoin chunks), none)) := by
  intro chunks
  induction chunks with
  | nil =>
    intro sp hold hlen
    have hj0 : hold ++ chunksJoin [] = hold := by simp [chunksJoin]
    have hnone : findSplit d hold = none := by
      apply (findSplit_none_iff hd).mpr
      intro j hseg
      obtain ⟨x, hx⟩ := headSeg_iff.mp hseg
      have h1 := congrArg List.length hx
      rw [List.length_drop, List.length_append] at h1
      omega
    rw [hj0, hnone]
    simp [dmFinish]
  | cons c cs ih =>
    intro sp hold hlen
    rw [List.foldl_cons]
    have hjoin : chunksJoin (c :: cs) = c ++ chunksJoin cs := rfl
    rcases hf : findSplit d (hold ++ c) with _ | pr
    · -- no delimiter yet: hold back the long border
      have hstep : dmStep d (sp, .speak hold) c =
          (sp ++ (hold ++ c).take ((hold ++ c).length - maxBorder d (hold ++ c)),
           .speak ((hold ++ c).drop ((hold ++ c).length - maxBorder d (hold ++ c)))) := by
        rw [dmStep]
        simp only [hf]
      rw [hstep]
      have hlen2 : ((hold ++ c).drop ((hold ++ c).length - maxBorder d (hold ++ c))).length
          < d.length := by
        rw [List.length_drop]
        have h1 := maxBorder_le_len d (hold ++ c)
        have h2 := maxBorder_lt (b := hold ++ c) hd
        omega
      rw [ih _ _ hlen2]
      have hEbord := no_occ_before_border hd hf (chunksJoin cs)
      have hE : (hold ++ c).take ((hold ++ c).length - maxBorder d (hold ++ c)) ++
          ((hold ++ c).drop ((hold ++ c).length - maxBorder d (hold ++ c)) ++ chunksJoin cs) =
          (hold ++ c) ++ chunksJoin cs := by
        rw [← List.append_assoc, List.take_append_drop]
      have happ := findSplit_app_left (d := d)
        (E := (hold ++ c).take ((hold ++ c).length - maxBorder d (hold ++ c)))
        (x := (hold ++ c).drop ((hold ++ c).length - maxBorder d (hold ++ c)) ++ chunksJoin cs)
        (by
          intro j hj
          rw [hE]
          apply hEbord
          rw [List.length_take] at hj
          have h1 := maxBorder_le_len d (hold ++ c)
          omega)
      rw [hE] at happ
      have hassoc : hold ++ chunksJoin (c :: cs) = (hold ++ c) ++ chunksJoin cs := by
        rw [hjoin, List.append_assoc]
      rw [hassoc, happ]
      rcases hx : findSplit d ((hold ++ c).drop ((hold ++ c).length - maxBorder d (hold ++ c)) ++
          chunksJoin cs) with _ | pr2
      · simp only [Option.map_none']
        rw [List.append_assoc sp, hE]
      · simp only [Option.map_some']
        rw [List.append_assoc sp]
    · -- delimiter found inside `hold ++ c`
      have hstep : dmStep d (sp, .speak hold) c = (sp ++ pr.1, .collect pr.2) := by
        rw [dmStep]
        simp only [hf]
      rw [hstep, dmCollect]
      have hext := findSplit_ext (chunksJoin cs) hf
      have hassoc : hold ++ chunksJoin (c :: cs) = (hold ++ c) ++ chunksJoin cs := by
        rw [hjoin, List.append_assoc]
      rw [hassoc, hext]

/-- The demultiplexer machine equals the first-occurrence splitting contract
on the concatenated stream. -/
lemma demux_eq_splitSpec {d : List Char} (hd : d ≠ []) (chunks : List (List Char)) :
    demux d chunks = splitSpec d (chunksJoin chunks) := by
  have h1 : demux d chunks = dmFinish (chunks.foldl (dmStep d) ([], .speak [])) := by
    unfold demux dmFinish
    rcases hr : chunks.foldl (dmStep d) ([], .speak []) with ⟨sp, mode⟩
    cases mode <;> rfl
  rw [h1, dmRun d hd chunks [] [] (by cases d with
    | nil => exact absurd rfl hd
    | cons a t => simp)]
  unfold splitSpec
  rcases hf : findSplit d ([] ++ chunksJoin chunks) with _ | pr <;>
    rw [List.nil_append] at hf <;> rw [hf] <;> simp

/- ============ helper lemmas: prediction guards and reachable fixtures ============ -/

lemma featuresOf_fields {p : Profile} {f : Features} (h : featuresOf p = some f) :
    p.document_verified = true ∧
    p.monthly_income = some f.monthly_income ∧
    p.credit_score = some f.credit_score ∧
    p.loan_amount = some f.loan_amount := by
  unfold featuresOf at h
  split at h
  · cases h
  · rename_i hv
    rcases hi : p.monthly_income with _ | i <;> rw [hi] at h
    case none => cases h
    rcases hc : p.credit_score with _ | c <;> rw [hc] at h
    case none => cases h
    rcases hl : p.loan_amount with _ | l <;> rw [hl] at h
    case none => cases h
    cases h
    exact ⟨by simpa using hv, rfl, rfl, rfl⟩

lemma predictLE_calls {p : Profile} {f : MLService}
    (hv : p.document_verified = true) (ha : hasAllB p = true) :
    (predictLE p (some f)).2 = 1 := by
  unfold hasAllB at ha
  simp only [Bool.and_eq_true, Option.isSome_iff_exists] at ha
  obtain ⟨⟨⟨_, ⟨i, hi⟩⟩, ⟨c, hc⟩⟩, ⟨l, hl⟩⟩ := ha
  unfold predictLE featuresOf
  rw [hv, hi, hc, hl]
  rfl

lemma extract_income_src {t : String} {p : Profile}
    (h : ¬ (extract_structured_data t p).monthly_income = p.monthly_income) :
    ∃ v, tryAmt 100 1000000 (lowerL t.toList) incomePatterns = some v := by
  unfold extract_structured_data at h
  rw [(extractLoan_rest _ _).2.1, (extractScore_rest _ _).2.1] at h
  revert h
  unfold extractIncome
  split
  · rcases hv : tryAmt 100 1000000 (lowerL t.toList) incomePatterns with _ | v
    · intro h
      exact absurd (extractName_rest _ _).1 h
    · intro _
      exact ⟨v, rfl⟩
  · intro h
    exact absurd (extractName_rest _ _).1 h

lemma extract_score_src {t : String} {p : Profile}
    (h : ¬ (extract_structured_data t p).credit_score = p.credit_score) :
    ∃ v, tryScore (lowerL t.toList) scorePatterns = some v := by
  unfold extract_structured_data at h
  rw [(extractLoan_rest _ _).2.2.1] at h
  revert h
  unfold extractScore
  split
  · rcases hv : tryScore (lowerL t.toList) scorePatterns with _ | v
    · intro h
      exact absurd (by rw [(extractIncome_rest _ _).2.1, (extractName_rest _ _).2.1]) h
    · intro _
      exact ⟨v, rfl⟩
  · intro h
    exact absurd (by rw [(extractIncome_rest _ _).2.1, (extractName_rest _ _).2.1]) h

lemma extract_loan_src {t : String} {p : Profile}
    (h : ¬ (extract_structured_data t p).loan_amount = p.loan_amount) :
    ∃ v, tryAmt 1000 10000000 (lowerL t.toList) loanPatterns = some v := by
  unfold extract_structured_data at h
  revert h
  unfold extractLoan
  split
  · rcases hv : tryAmt 1000 10000000 (lowerL t.toList) loanPatterns with _ | v
    · intro h
      exact absurd (by rw [(extractScore_rest _ _).2.2.1, (extractIncome_rest _ _).2.2.1,
        (extractName_rest _ _).2.2.1]) h
    · intro _
      exact ⟨v, rfl⟩
  · intro h
    exact absurd (by rw [(extractScore_rest _ _).2.2.1, (extractIncome_rest _ _).2.2.1,
      (extractName_rest _ _).2.2.1]) h

lemma reach_manualSeq (ml : Option MLService) (llm : Option (List String)) :
    ∀ (ts : List String) {s : SessionSt}, Reach s → Reach (manualSeq ml llm s ts) := by
  intro ts
  induction ts with
  | nil => intro s h; exact h
  | cons t rest ih =>
    intro s h
    rw [manualSeq]
    exact ih (Reach.step ml llm (.manual t) h)

/- ============ the claims ============ -/

set_option maxRecDepth 8000
set_option maxHeartbeats 2000000

/-- Claim C1, counterexample: processing "my credit score is 700" and then
"my credit score is 750" leaves the profile's credit score at 700 — the
later valid extraction does NOT overwrite the earlier value, so
last-writer-wins is false on this input. -/
theorem claim1_counterexample :
    (runTurns none initSt [("my credit score is 700", none),
      ("my credit score is 750", none)]).1.profile.credit_score = some 700 ∧
    ¬ (runTurns none initSt [("my credit score is 700", none),
      ("my credit score is 750", none)]).1.profile.credit_score = some 750 := by
  decide

/-- Claim C1, amended: the structured profile is first-writer-wins — for
each field, the value from the first turn that validly set it is kept, a
later extraction never overwrites or removes it, and values are never
merged or concatenated. -/
theorem claim1_first_writer_wins (ml : Option MLService)
    (llm : Option (List String)) (s : SessionSt) (text : String) :
    (∀ v, s.profile.name = some v →
      (stepTurn ml llm s text).1.profile.name = some v) ∧
    (∀ v, s.profile.monthly_income = some v →
      (stepTurn ml llm s text).1.profile.monthly_income = some v) ∧
    (∀ v, s.profile.credit_score = some v →
      (stepTurn ml llm s text).1.profile.credit_score = some v) ∧
    (∀ v, s.profile.loan_amount = some v →
      (stepTurn ml llm s text).1.profile.loan_amount = some v) :=
  ⟨fun _ hv => stepTurn_keep_name hv, fun _ hv => stepTurn_keep_income hv,
   fun _ hv => stepTurn_keep_score hv, fun _ hv => stepTurn_keep_loan hv⟩

/-- Claim C1, witness: a session that already holds credit score 700 keeps
it across a turn saying "my credit score is 750". -/
theorem claim1_witness :
    (stepTurn none none
      { initSt with profile := { initProfile with credit_score := some 700 } }
      "my credit score is 750").1.profile.credit_score = some 700 :=
  (claim1_first_writer_wins none none
    { initSt with profile := { initProfile with credit_score := some 700 } }
    "my credit score is 750").2.2.1 700 rfl

/-- Claim C2, counterexample: a full session (four collecting turns, then
the "document verified" turn) invokes `ml_service.predict_eligibility`
twice — once in the verification branch and once again at end of the same
turn — so "at most once per session" is false; there is no
`eligibilityChecked` gate in the code. -/
theorem claim2_counterexample :
    (runTurns (some mlConst) initSt
      (setupTurns ++ [("document verified", some [])])).2.2 = 2 := by
  decide

/-- Claim C2, amended: far from running at most once, the eligibility check
re-runs on every processed turn while the profile stays verified with all
required fields present: over any such sequence of turns the scorer is
invoked exactly once per turn. -/
theorem claim2_rescoring_per_turn (f : MLService) :
    ∀ (turns : List (String × Option (List String))) (s : SessionSt),
      s.profile.document_verified = true → hasAllB s.profile = true →
      (∀ tl2 ∈ turns, ¬ trimL tl2.1.toList = [] ∧
        seg docPhraseL (lowerL tl2.1.toList) = false ∧ tl2.2.isSome = true) →
      (runTurns (some f) s turns).2.2 = turns.length := by
  intro turns
  induction turns with
  | nil => intro s _ _ _; rfl
  | cons tl2 rest ih =>
    intro s hver hall hts
    obtain ⟨hne, hnp, hsome⟩ := hts tl2 (List.mem_cons_self _ _)
    obtain ⟨t, l⟩ := tl2
    dsimp at hne hnp hsome
    obtain ⟨toks, rfl⟩ := Option.isSome_iff_exists.mp hsome
    have hp := stepTurn_noPhrase (some f) toks s t hne hnp
    have hPver : (extract_structured_data t s.profile).document_verified = true := by
      rw [extract_flag]; exact hver
    have hPall := extract_hasAll (t := t) hall
    have hcalls : (stepTurn (some f) (some toks) s t).2.2 = 1 := by
      rw [hp.2.2.2, if_pos hPver, predictLE_calls hPver hPall]
    rw [runTurns]
    dsimp
    rw [hcalls, ih (stepTurn (some f) (some toks) s t).1
      (by rw [hp.1]; exact hPver)
      (by rw [hp.1]; exact hPall)
      (fun x hx => hts x (List.mem_cons_of_mem _ hx))]
    simp [Nat.add_comm]

/-- Claim C2, witness: from a verified, fully-collected session state, two
further plain turns produce two scorer invocations. -/
theorem claim2_witness :
    (runTurns (some mlConst)
      { initSt with profile := ⟨some "Al", some 500, some 750, some 2000, true⟩ }
      [("ok", some []), ("sure", some [])]).2.2 = 2 :=
  claim2_rescoring_per_turn mlConst [("ok", some []), ("sure", some [])]
    { initSt with profile := ⟨some "Al", some 500, some 750, some 2000, true⟩ }
    rfl (by decide) (by decide)

/-- Claim C3, counterexample: with all four fields present and documents
unverified, two further final transcripts produce two
`document_verification_required` events, not exactly one — there is no
`verificationRequested` flag. -/
theorem claim3_counterexample :
    countDocReq (runTurns none initSt
      (setupTurns ++ [("hello there", some []), ("ok then", some [])])).2.1 = 2 := by
  decide

/-- Claim C3, amended: in the all-fields-present unverified state each
processed turn (with a live LLM stream) emits exactly one
`document_verification_required` event and zero `eligibility_result`
events; the "document verified" turn itself emits two `eligibility_result`
events (one from the verification branch, one at end of turn) and no
further verification request. -/
theorem claim3_per_turn_events :
    (∀ (ml : Option MLService) (toks : List String) (s : SessionSt) (text : String),
      ¬ trimL text.toList = [] → seg docPhraseL (lowerL text.toList) = false →
      s.profile.document_verified = false → hasAllB s.profile = true →
      countDocReq (stepTurn ml (some toks) s text).2.1 = 1 ∧
      countElig (stepTurn ml (some toks) s text).2.1 = 0) ∧
    (∀ (ml : Option MLService) (toks : List String) (s : SessionSt)
      (text : String) (r : PredResult),
      ¬ trimL text.toList = [] → seg docPhraseL (lowerL text.toList) = true →
      predictLE { s.profile with document_verified := true } ml = (some r, 1) →
      countElig (stepTurn ml (some toks) s text).2.1 = 2 ∧
      countDocReq (stepTurn ml (some toks) s text).2.1 = 0) := by
  constructor
  · intro ml toks s text hne hnp hver hall
    have hp := stepTurn_noPhrase ml toks s text hne hnp
    have hPver : (extract_structured_data text s.profile).document_verified = false := by
      rw [extract_flag]; exact hver
    have hPall := extract_hasAll (t := text) hall
    constructor
    · rw [hp.2.1, if_pos ⟨hPver, hPall⟩]
    · rw [hp.2.2.1, if_neg]
      rintro ⟨h1, _⟩
      rw [hPver] at h1
      cases h1
  · intro ml toks s text r hne hphr hml
    have hp := stepTurn_phrase ml toks s text r hne hphr hml
    exact ⟨hp.2.1, hp.2.2.1⟩

/-- Claim C3, witness: concrete instances of both parts on an
all-fields-collected state. -/
theorem claim3_witness :
    countDocReq (stepTurn none (some [])
      { initSt with profile := ⟨some "Al", some 500, some 750, some 2000, false⟩ } "ok").2.1 = 1 ∧
    countElig (stepTurn none (some [])
      { initSt with profile := ⟨some "Al", some 500, some 750, some 2000, false⟩ } "ok").2.1 = 0 ∧
    countElig (stepTurn (some mlConst) (some [])
      { initSt with profile := ⟨some "Al", some 500, some 750, some 2000, false⟩ } "document verified").2.1 = 2 ∧
    countDocReq (stepTurn (some mlConst) (some [])
      { initSt with profile := ⟨some "Al", some 500, some 750, some 2000, false⟩ } "document verified").2.1 = 0 := by
  have h1 := claim3_per_turn_events.1 none []
    { initSt with profile := ⟨some "Al", some 500, some 750, some 2000, false⟩ } "ok" (by decide) (by decide) rfl rfl
  have h2 := claim3_per_turn_events.2 (some mlConst) []
    { initSt with profile := ⟨some "Al", some 500, some 750, some 2000, false⟩ } "document verified" predRes0
    (by decide) (by decide) rfl
  exact ⟨h1.1, h1.2, h2.1, h2.2⟩

/-- Claim C4 (spec-modelled: the delimiter demultiplexer is a client-side
component not included under the provided sources, so it is modelled from
the spec): the streaming demultiplexer machine realizes exactly the
first-occurrence splitting contract — all text before the delimiter is
forwarded as speakable text in order, everything after it is buffered as
the structured-data block and never spoken, and when the delimiter never
appears the whole output is speakable with no block; on the spec's worked
example (delimiter spanning a chunk boundary) it yields speakable text
"Hello there." and the JSON block naming Bob. -/
theorem claim4_demux :
    (∀ (d : List Char) (chunks : List (List Char)), d ≠ [] →
      demux d chunks = splitSpec d (chunksJoin chunks)) ∧
    demux DELIM exampleChunks =
      ("Hello there.".toList, some (("\x7b\"name\":\"Bob\"\x7d").toList)) := by
  constructor
  · intro d chunks hd
    exact demux_eq_splitSpec hd chunks
  · decide

/-- Claim C4, witness: the contract equality instantiated at the fixed
delimiter and the example chunk stream. -/
theorem claim4_witness :
    demux DELIM exampleChunks = splitSpec DELIM (chunksJoin exampleChunks) :=
  claim4_demux.1 DELIM exampleChunks (by decide)

/-- Claim C5, counterexample: turn 0 queues the sentence "Hi.", turn 1 is
processed next, and only then does the TTS worker emit turn 0's audio chunk
— an audio chunk belonging to the earlier turn is emitted after the later
turn's processing began, so the claimed barge-in cancellation is false (the
code never cancels the pending response). -/
theorem claim5_counterexample :
    (runSys none (fun _ => true) initSt
      [Act.turn "hi" (some ["Hi."]), Act.turn "yo" (some ["Ok."]),
       Act.work]).2 =
      [Ev.aiToken "Hi.", Ev.aiToken "Ok.", Ev.audioEv 0] := by
  decide

/-- Claim C5, amended: there is no cancellation — processing a new turn
never removes or suppresses the sentences an earlier turn queued for
synthesis: the TTS queue only grows across a turn, so the worker may still
emit the prior turn's audio after the new turn's processing begins. -/
theorem claim5_no_cancellation (ml : Option MLService)
    (llm : Option (List String)) (s : SessionSt) (text : String) :
    ∃ tail, (stepTurn ml llm s text).1.queue = s.queue ++ tail := by
  unfold stepTurn
  split
  · exact ⟨[], by simp⟩
  · cases llm with
    | none => exact ⟨[], by simp⟩
    | some toks => exact ⟨_, rfl⟩

/-- Claim C6: interim (partial) transcript events are advisory only — over
any sequence of interim events the session state (conversation, profile,
buffers, queue) is exactly unchanged, and the only messages emitted are
`partial_transcript` messages carrying the stripped interim text; no
extraction and no LLM dispatch occurs. -/
theorem claim6_interim_no_effect (ml : Option MLService)
    (llm : Option (List String)) (s : SessionSt) : ∀ ts : List String,
    (runInterims ml llm s ts).1 = s ∧
    (runInterims ml llm s ts).2 = ts.foldr
      (fun t acc => (if trimL t.toList = [] then [] else
        [Ev.interimEv (String.mk (trimL t.toList))]) ++ acc) [] := by
  intro ts
  induction ts with
  | nil => exact ⟨rfl, rfl⟩
  | cons t rest ih =>
    rw [runInterims, List.foldr_cons]
    exact ⟨ih.1, by rw [← ih.2]; rfl⟩

/-- Claim C7, counterexample: the utterance "my income is five thousand"
contains no digit character, yet processing it sets `monthly_income` to
5000 — the written-number path accepts numeric fields without any digit,
so the digit guard as claimed is false. -/
theorem claim7_counterexample :
    ("my income is five thousand".toList.all (fun c => !c.isDigit)) = true ∧
    (extract_structured_data "my income is five thousand"
      initProfile).monthly_income = some 5000 := by
  constructor
  · decide
  · decide

/-- Claim C7, amended: a numeric field is accepted only if the utterance
contains a digit or spells a number out in words — for every utterance
whose lowercased text contains no digit and (after comma removal) no
occurrence of any of the number words one–ten, twenty–ninety, hundred,
thousand, million, the profile's numeric fields are unchanged. -/
theorem claim7_no_digit_no_word_guard (text : String) (p : Profile)
    (hd : (lowerL text.toList).all (fun c => !c.isDigit) = true)
    (hw : numWordsChk.all
      (fun w => !(seg w.toList (removeCommas (lowerL text.toList)))) = true) :
    (extract_structured_data text p).monthly_income = p.monthly_income ∧
    (extract_structured_data text p).credit_score = p.credit_score ∧
    (extract_structured_data text p).loan_amount = p.loan_amount := by
  have hd2 : ∀ c ∈ lowerL text.toList, ¬ c.isDigit = true := by
    intro c hc
    have := List.all_eq_true.mp hd c hc
    simpa using this
  have hw2 : ∀ w ∈ numWordsChk,
      ¬ seg w.toList (removeCommas (lowerL text.toList)) = true := by
    intro w hwm
    have := List.all_eq_true.mp hw w hwm
    simpa using this
  refine ⟨?_, ?_, ?_⟩
  · by_contra h
    obtain ⟨v, hv⟩ := extract_income_src h
    rcases tryAmt_src hv with ⟨c, hc, hcd⟩ | ⟨w, hwm, hseg⟩
    · exact hd2 c hc hcd
    · exact hw2 w hwm hseg
  · by_contra h
    obtain ⟨v, hv⟩ := extract_score_src h
    rcases tryScore_src hv with ⟨c, hc, hcd⟩ | ⟨w, hwm, hseg⟩
    · exact hd2 c hc hcd
    · exact hw2 w hwm hseg
  · by_contra h
    obtain ⟨v, hv⟩ := extract_loan_src h
    rcases tryAmt_src hv with ⟨c, hc, hcd⟩ | ⟨w, hwm, hseg⟩
    · exact hd2 c hc hcd
    · exact hw2 w hwm hseg

/-- Claim C7, witness: an utterance with neither digits nor number words
leaves every numeric field unchanged. -/
theorem claim7_witness :
    ((lowerL ("hello my name is Bob").toList).all (fun c => !c.isDigit) = true) ∧
    (extract_structured_data "hello my name is Bob" initProfile).monthly_income =
      initProfile.monthly_income ∧
    (extract_structured_data "hello my name is Bob" initProfile).credit_score =
      initProfile.credit_score ∧
    (extract_structured_data "hello my name is Bob" initProfile).loan_amount =
      initProfile.loan_amount :=
  ⟨by decide, claim7_no_digit_no_word_guard "hello my name is Bob" initProfile
    (by decide) (by decide)⟩

/-- Claim C8: a credit-score value is accepted into the profile only when it
is an integer in [300, 850]; on the out-of-range payload "950" the field is
dropped while the rest of the turn's extraction still applies, and a prior
credit-score value, or its absence, is retained unchanged. -/
theorem claim8_score_validation :
    (∀ (t : String) (p : Profile),
      (extract_structured_data t p).credit_score = p.credit_score ∨
        (p.credit_score = none ∧ ∃ s, (extract_structured_data t p).credit_score
          = some s ∧ 300 ≤ s ∧ s ≤ 850)) ∧
    (extract_structured_data "my credit score is 950" initProfile).credit_score
      = none ∧
    (extract_structured_data "my credit score is 950 and i make 500"
      initProfile).monthly_income = some 500 ∧
    (extract_structured_data "my credit score is 950"
      { initProfile with credit_score := some 700 }).credit_score = some 700 := by
  refine ⟨extract_score, by decide, by decide, by decide⟩

/-- Claim C9: in every reachable session state, whenever the
eligibility-scoring collaborator is invoked the features passed to it are
above the sanity floors — income and loan amount strictly positive (indeed
at or above their extraction floors of 100 and 1000) and the credit score
inside [300, 850]; the scorer is never handed garbage values. -/
theorem claim9_sanity_floors (s : SessionSt) (hs : Reach s) (f : Features)
    (hf : featuresOf s.profile = some f) :
    (0 < f.monthly_income ∧ 100 ≤ f.monthly_income) ∧
    (300 ≤ f.credit_score ∧ f.credit_score ≤ 850) ∧
    (0 < f.loan_amount ∧ 1000 ≤ f.loan_amount) := by
  obtain ⟨hv, hi, hc, hl⟩ := featuresOf_fields hf
  obtain ⟨pi2, pc2, pl2⟩ := reach_profOk hs
  have h1 := pi2 _ hi
  have h2 := pc2 _ hc
  have h3 := pl2 _ hl
  exact ⟨⟨by linarith [h1.1], h1.1⟩, ⟨h2.1, h2.2⟩, ⟨by linarith [h3.1], h3.1⟩⟩

/-- Claim C9, witness: a concrete reachable verified session whose features
satisfy every floor. -/
theorem claim9_witness :
    featuresOf verifiedSession.profile = some ⟨500, 750, 2000⟩ ∧
    (((0 : ℚ) < 500 ∧ (100 : ℚ) ≤ 500) ∧ ((300 : ℤ) ≤ 750 ∧ (750 : ℤ) ≤ 850) ∧
      ((0 : ℚ) < 2000 ∧ (1000 : ℚ) ≤ 2000)) :=
  ⟨by decide, claim9_sanity_floors verifiedSession
    (reach_manualSeq none none
      ["my name is Al", "my income is 500", "my credit score is 750",
       "i need a loan of 2,000", "document verified"] Reach.init)
    ⟨500, 750, 2000⟩ (by decide)⟩

/-- Claim C10: `extract_structured_data` never modifies or removes an
already-set field — every present field keeps exactly its value (and the
`document_verified` flag is untouched); only absent fields among the four
extraction targets can be added. -/
theorem claim10_monotone_growth (t : String) (p : Profile) :
    ((extract_structured_data t p).name = p.name ∨ p.name = none) ∧
    ((extract_structured_data t p).monthly_income = p.monthly_income ∨
      p.monthly_income = none) ∧
    ((extract_structured_data t p).credit_score = p.credit_score ∨
      p.credit_score = none) ∧
    ((extract_structured_data t p).loan_amount = p.loan_amount ∨
      p.loan_amount = none) ∧
    (extract_structured_data t p).document_verified = p.document_verified := by
  refine ⟨?_, ?_, ?_, ?_, extract_flag t p⟩
  · rcases extract_name t p with h | ⟨h0, _⟩
    exacts [Or.inl h, Or.inr h0]
  · rcases extract_income t p with h | ⟨h0, _⟩
    exacts [Or.inl h, Or.inr h0]
  · rcases extract_score t p with h | ⟨h0, _⟩
    exacts [Or.inl h, Or.inr h0]
  · rcases extract_loan t p with h | ⟨h0, _⟩
    exacts [Or.inl h, Or.inr h0]
